import Mathlib

/-!
Verification development for the qTox chat-history persistence engine
(`src/persistence/history.cpp`).

The C++ code drives a SQLite database through `RawDatabase` queries.  The
shallow embedding below represents the database file as explicit lists of
typed rows (one list per table), the in-memory peer cache (`QHash<QString,
int64_t> History::peers`) and the transient file-link map
(`QHash<QString, FileInfo> History::fileInfos`) as association lists, and
each operation of `History` as a Lean function computing the effect of the
queries the operation generates, applied in statement order.  SQLite
specifics embedded here: a fresh `INTEGER PRIMARY KEY` rowid is
`max(existing ids) + 1` (`1` on an empty table), `last_insert_rowid()` and
`changes()` are threaded through a batch explicitly, a scalar subquery
that finds no row yields NULL (represented with `Option`), and `DELETE` /
`UPDATE` with no matching row change nothing.
-/

/-- File states of `ToxFile` used by history.cpp (`ToxFile::CANCELED`,
`ToxFile::FINISHED`).  The enum lives in a header outside `src/`; the spec
says the final state "conflates success into `Finished`,
failure/cancellation into `Canceled`", and only these two values are ever
stored, so the carrier keeps just them. -/
inductive FileState
  | CANCELED
  | FINISHED
deriving DecidableEq

/-- `ToxFile::FileDirection` (`SENDING` / `RECEIVING`). -/
inductive FileDirection
  | SENDING
  | RECEIVING
deriving DecidableEq

/-- A row of the `peers` table: `peers(id INTEGER PRIMARY KEY, public_key TEXT NOT NULL UNIQUE)`. -/
structure PeerRow where
  id : Int
  public_key : String
deriving DecidableEq

/-- A row of the `aliases` table:
`aliases(id INTEGER PRIMARY KEY, owner INTEGER, display_name BLOB NOT NULL, UNIQUE(owner, display_name))`. -/
structure AliasRow where
  id : Int
  owner : Int
  display_name : String
deriving DecidableEq

/-- A row of the `history` table:
`history(id INTEGER PRIMARY KEY, timestamp, chat_id, sender_alias, message, file_id INTEGER)`.
`file_id` is nullable. -/
structure HistoryRow where
  id : Int
  timestamp : Int
  chat_id : Int
  sender_alias : Int
  message : String
  file_id : Option Int
deriving DecidableEq

/-- A row of the `file_transfers` table. -/
structure FileTransferRow where
  id : Int
  chat_id : Int
  file_restart_id : String
  file_name : String
  file_path : String
  file_hash : String
  file_size : Int
  direction : FileDirection
  file_state : FileState
deriving DecidableEq

/-- The database file: the five tables plus the `PRAGMA user_version`
marker.  `faux_offline_pending(id INTEGER PRIMARY KEY)` is a list of
message ids. -/
structure DB where
  peersTable : List PeerRow
  aliasesTable : List AliasRow
  historyTable : List HistoryRow
  fileTransfersTable : List FileTransferRow
  fauxOfflinePending : List Int
  userVersion : Int
deriving DecidableEq

/-- The transient per-transfer link state (`History::FileInfo`, declared in
history.h outside `src/`).  Defaults modelled from the spec and the .cpp
usage: `History::setFileFinished` tests `fileInfo.fileId == -1` on a
freshly default-constructed entry to detect "file row not yet created",
and `History::onFileInserted` tests `fileInfo.finished` to detect
"outcome already known", so a fresh entry carries `fileId = -1` and
`finished = false`. -/
structure FileInfo where
  fileId : Int := -1
  finished : Bool := false
  success : Bool := false
  filePath : String := ""
  fileHash : String := ""
deriving DecidableEq

/-- `History`: an optional handle to the database (`db.reset()` makes it
`none`), the peer cache `History::peers` and the link map
`History::fileInfos`. -/
structure History where
  db : Option DB
  peers : List (String × Int)
  fileInfos : List (String × FileInfo)
deriving DecidableEq

/-! ### QHash association-list operations -/

/-- `QHash::value` / `operator[]` lookup (keys are unique in a QHash). -/
def qhashLookup {α : Type} (m : List (String × α)) (k : String) : Option α :=
  (m.find? (fun p => p.1 == k)).map (fun p => p.2)

/-- `QHash::contains`. -/
def qhashContains {α : Type} (m : List (String × α)) (k : String) : Bool :=
  (qhashLookup m k).isSome

/-- `QHash::insert` / assignment through `operator[]`: replace the value
of an existing key, else add the pair. -/
def qhashInsert {α : Type} (m : List (String × α)) (k : String) (v : α) : List (String × α) :=
  match m with
  | [] => [(k, v)]
  | p :: rest => if p.1 == k then (k, v) :: rest else p :: qhashInsert rest k v

/-- `QHash::remove`. -/
def qhashRemove {α : Type} (m : List (String × α)) (k : String) : List (String × α) :=
  m.filter (fun p => !(p.1 == k))

/-- `std::max_element(peers.begin(), peers.end())` iterates the hash's
values; history.cpp only calls it on a non-empty cache. -/
def maxValues : List (String × Int) → Int
  | [] => 0
  | p :: rest => rest.foldl (fun acc q => max acc q.2) p.2

/-- A fresh SQLite rowid for an `INTEGER PRIMARY KEY` column: largest
existing rowid plus one (`1` for an empty table). -/
def nextRowid (ids : List Int) : Int :=
  ids.foldl max 0 + 1

/-! ### Message insertion (History::generateNewMessageQueries, History::addNewMessage) -/

/-- The peer-id resolution at history.cpp:206-240: a cache hit returns the
cached id; a miss assigns `0` on an empty cache, otherwise
`max_element(values) + 1`, stores the pair in the cache and emits
`INSERT INTO peers (id, public_key) VALUES (...)`.  Returns the updated
cache, the id, and whether the insert command was emitted. -/
def resolvePeerId (peers : List (String × Int)) (pk : String) : List (String × Int) × Int × Bool :=
  match qhashLookup peers pk with
  | some i => (peers, i, false)
  | none =>
    let i : Int := if peers.isEmpty then 0 else maxValues peers + 1
    (qhashInsert peers pk i, i, true)

/-- `INSERT OR IGNORE INTO aliases (owner, display_name) VALUES (%1, ?)`
(history.cpp:242-244).  Returns the database, `changes() != 0` for the
statement, and `last_insert_rowid()` after it (meaningful only when a row
was inserted; "garbage" otherwise, per the source comment). -/
def aliasInsertOrIgnore (db : DB) (owner : Int) (dn : String) : DB × Bool × Int :=
  match db.aliasesTable.find? (fun a => a.owner == owner && a.display_name == dn) with
  | some _ => (db, false, 0)
  | none =>
    let aid := nextRowid (db.aliasesTable.map (fun a => a.id))
    ({ db with aliasesTable := db.aliasesTable ++ [⟨aid, owner, dn⟩] }, true, aid)

/-- The sender-alias expression of the history insert (history.cpp:249-256):
`CASE WHEN changes() IS 0 THEN (SELECT id FROM aliases WHERE owner=%3 AND
display_name=?) ELSE last_insert_rowid() END`, evaluated right after the
alias insert-or-ignore. -/
def aliasIdExpr (db : DB) (owner : Int) (dn : String) (changes : Bool) (lastRowid : Int) : Int :=
  if changes = false then
    (((db.aliasesTable.find? (fun a => a.owner == owner && a.display_name == dn)).map
      (fun a => a.id)).getD 0)
  else lastRowid

/-- Effect of the batch returned by `History::generateNewMessageQueries`
(history.cpp:199-269) when `RawDatabase` applies it: resolve the chat
peer, then the sender peer, insert-or-ignore the sender's alias, insert
the history row (whose `sender_alias` uses `aliasIdExpr`), and — iff
`isSent` is false — insert the new row's id into `faux_offline_pending`.
Returns the new cache, the new database, and the id handed to
`insertIdCallback`. -/
def generateNewMessageQueries (peers : List (String × Int)) (db : DB)
    (friendPk message sender : String) (timeMs : Int) (isSent : Bool) (dispName : String) :
    List (String × Int) × DB × Int :=
  let r1 := resolvePeerId peers friendPk
  let peers1 := r1.1
  let peerId := r1.2.1
  let db1 := if r1.2.2 then { db with peersTable := db.peersTable ++ [⟨peerId, friendPk⟩] } else db
  let r2 := resolvePeerId peers1 sender
  let peers2 := r2.1
  let senderId := r2.2.1
  let db2 := if r2.2.2 then { db1 with peersTable := db1.peersTable ++ [⟨senderId, sender⟩] } else db1
  let r3 := aliasInsertOrIgnore db2 senderId dispName
  let db3 := r3.1
  let senderAliasId := aliasIdExpr db3 senderId dispName r3.2.1 r3.2.2
  let mid := nextRowid (db3.historyTable.map (fun hr => hr.id))
  let db4 := { db3 with historyTable :=
    db3.historyTable ++ [⟨mid, timeMs, peerId, senderAliasId, message, none⟩] }
  let db5 := if isSent then db4
    else { db4 with fauxOfflinePending := db4.fauxOfflinePending ++ [mid] }
  (peers2, db5, mid)

/-- `History::isValid` (history.cpp:121-124): the handle is set and open. -/
def History.isValid (h : History) : Bool :=
  h.db.isSome

/-- `History::addNewMessage` (history.cpp:396-410).  `enableLogging`
models `Settings::getInstance().getEnableLogging()`.  Returns the new
state and the id passed to `insertIdCallback` (`none` when the message
was not inserted, in which case the callback never fires). -/
def History.addNewMessage (h : History) (enableLogging : Bool)
    (friendPk message sender : String) (timeMs : Int) (isSent : Bool) (dispName : String) :
    History × Option Int :=
  if !enableLogging then (h, none)
  else
    match h.db with
    | none => (h, none)
    | some db =>
      let r := generateNewMessageQueries h.peers db friendPk message sender timeMs isSent dispName
      ({ h with db := some r.2.1, peers := r.1 }, some r.2.2)

/-- `History::markAsSent` (history.cpp:619-626):
`DELETE FROM faux_offline_pending WHERE id=%1`. -/
def History.markAsSent (h : History) (messageId : Int) : History :=
  match h.db with
  | none => h
  | some db =>
    { h with db := some { db with
        fauxOfflinePending := db.fauxOfflinePending.filter (fun i => !(i == messageId)) } }

/-! ### File transfers (History::addNewFileMessage and the linking state machine) -/

/-- `FileDbInsertionData` (fields as used by history.cpp). -/
structure FileDbInsertionData where
  friendPk : String
  fileId : String
  fileName : String
  filePath : String
  size : Int
  direction : FileDirection
  historyId : Int
deriving DecidableEq

/-- Effect of the batch built by `History::onFileInsertionReady`
(history.cpp:271-305): insert the `file_transfers` row with
`file_hash = QByteArray()` (empty) and `file_state = ToxFile::CANCELED`,
then `UPDATE history SET file_id = (last_insert_rowid()) WHERE id = %1`.
Returns the generated file-row id, which the row's id-callback forwards
through the `fileInserted` signal to `History::onFileInserted`.  The
source reads `peers[data.friendPk]` with no guard (the id "is guaranteed
to be inserted since we just used it in addNewMessage"); a missing key
default-constructs `0` in a QHash. -/
def History.onFileInsertionReady (h : History) (data : FileDbInsertionData) : History × Option Int :=
  match h.db with
  | none => (h, none)
  | some db =>
    let peerId := (qhashLookup h.peers data.friendPk).getD 0
    let fid := nextRowid (db.fileTransfersTable.map (fun ft => ft.id))
    let row : FileTransferRow :=
      ⟨fid, peerId, data.fileId, data.fileName, data.filePath, "", data.size,
        data.direction, FileState.CANCELED⟩
    let db1 := { db with fileTransfersTable := db.fileTransfersTable ++ [row] }
    let db2 := { db1 with historyTable := db1.historyTable.map (fun hr =>
      if hr.id == data.historyId then { hr with file_id := some fid } else hr) }
    ({ h with db := some db2 }, some fid)

/-- Effect of the query returned by `History::generateFileFinished`
(history.cpp:320-338).  With a non-empty path it updates `file_state`,
`file_path` and `file_hash` of the row.  With an empty path the source
emits `UPDATE file_transfers SET finished = %1 WHERE id = %2`, but the
`file_transfers` table has no `finished` column, so the statement fails
and changes nothing. -/
def DB.applyFileFinished (db : DB) (id : Int) (success : Bool)
    (filePath : String) (fileHash : String) : DB :=
  let file_state := if success then FileState.FINISHED else FileState.CANCELED
  if filePath.length != 0 then
    { db with fileTransfersTable := db.fileTransfersTable.map (fun ft =>
        if ft.id == id then
          { ft with file_state := file_state, file_path := filePath, file_hash := fileHash }
        else ft) }
  else db

/-- `History::onFileInserted` (history.cpp:307-318).  `fileInfos[fileId]`
default-constructs a fresh entry when the key is absent.  If the outcome
is already recorded (`finished`), enqueue the finishing update and drop
the entry; otherwise remember the database id in the entry. -/
def History.onFileInserted (h : History) (dbId : Int) (fileId : String) : History :=
  let fileInfo := (qhashLookup h.fileInfos fileId).getD {}
  if fileInfo.finished then
    let h1 := match h.db with
      | none => h
      | some db =>
        { h with db := some (db.applyFileFinished dbId fileInfo.success
            fileInfo.filePath fileInfo.fileHash) }
    { h1 with fileInfos := qhashRemove h1.fileInfos fileId }
  else
    { h with fileInfos := (qhashInsert h.fileInfos fileId
        { fileInfo with finished := false, fileId := dbId }) }

/-- `History::setFileFinished` (history.cpp:412-426).  When the file row's
database id is not yet known (`fileId == -1` on the freshly
default-constructed entry) the outcome is recorded in the entry;
otherwise the finishing update is enqueued.  Line 425 then removes the
`fileInfos` entry unconditionally — including the entry the first branch
just wrote. -/
def History.setFileFinished (h : History) (fileId : String) (success : Bool)
    (filePath : String) (fileHash : String) : History :=
  let fileInfo := (qhashLookup h.fileInfos fileId).getD {}
  let h1 :=
    if fileInfo.fileId == -1 then
      let recorded : FileInfo := { fileInfo with
        finished := true
        success := success
        filePath := filePath
        fileHash := fileHash }
      { h with fileInfos := qhashInsert h.fileInfos fileId recorded }
    else
      match h.db with
      | none => h
      | some db =>
        { h with db := some (db.applyFileFinished fileInfo.fileId success filePath fileHash) }
  { h1 with fileInfos := qhashRemove h1.fileInfos fileId }

/-- `History::addNewFileMessage` (history.cpp:340-384) chained with the
id-callback it installs: an empty message is appended with
`isSent = true`; once its id is known, `fileInsertionReady` fires and
`History::onFileInsertionReady` inserts the file row and patches the
message's `file_id`.  Returns the state after that batch and the file
row's id (the argument of the pending `fileInserted` signal, i.e. of the
eventual `History::onFileInserted` call); `none` when the message insert
never ran, so no callback fires. -/
def History.addNewFileMessage (h : History) (enableLogging : Bool)
    (friendPk fileId fileName filePath : String) (size : Int)
    (sender : String) (timeMs : Int) (dispName : String) : History × Option Int :=
  let direction := if sender == friendPk then FileDirection.RECEIVING else FileDirection.SENDING
  let r := h.addNewMessage enableLogging friendPk "" sender timeMs true dispName
  match r.2 with
  | none => (r.1, none)
  | some messageId =>
    r.1.onFileInsertionReady ⟨friendPk, fileId, fileName, filePath, size, direction, messageId⟩

/-! ### Erasure (History::eraseHistory, History::removeFriendHistory) -/

/-- `History::eraseHistory` (history.cpp:139-151): deletes every row of
the five tables.  The in-memory peer cache is not touched. -/
def History.eraseHistory (h : History) : History :=
  match h.db with
  | none => h
  | some db =>
    let db1 : DB := { db with
      peersTable := []
      aliasesTable := []
      historyTable := []
      fileTransfersTable := []
      fauxOfflinePending := [] }
    { h with db := some db1 }

/-- `History::removeFriendHistory` (history.cpp:157-187).  A no-op when
the peer is not cached.  Otherwise, with `%1` the cached id: delete the
`faux_offline_pending` rows whose id joins a `history` row with
`chat_id=%1` (the statement runs before the history delete, so the join
reads the original table), the `history` rows with `chat_id=%1`, the
`aliases` rows with `owner=%1`, the `peers` row with `id=%1` and the
`file_transfers` rows with `chat_id=%1`; on success drop the cache
entry. -/
def History.removeFriendHistory (h : History) (friendPk : String) : History :=
  match h.db with
  | none => h
  | some db =>
    match qhashLookup h.peers friendPk with
    | none => h
    | some id =>
      let db1 : DB := { db with
        fauxOfflinePending := db.fauxOfflinePending.filter (fun pid =>
          !(db.historyTable.any (fun hr => hr.id == pid && hr.chat_id == id))),
        historyTable := db.historyTable.filter (fun hr => !(hr.chat_id == id)),
        aliasesTable := db.aliasesTable.filter (fun a => !(a.owner == id)),
        peersTable := db.peersTable.filter (fun p => !(p.id == id)),
        fileTransfersTable := db.fileTransfersTable.filter (fun ft => !(ft.chat_id == id)) }
      { h with db := some db1, peers := qhashRemove h.peers friendPk }

/-! ### Opening a store (History::History, History::dbSchemaUpgrade) -/

def SCHEMA_VERSION : Int := 1

/-- The `History` constructor (history.cpp:51-104) together with
`History::dbSchemaUpgrade` (history.cpp:703-737), acting on the database
file `file` (`none` models a handle that is not open).  If the stored
`user_version` exceeds `SCHEMA_VERSION` the handle is reset and nothing
is written.  Otherwise the upgrade steps run (modelled here as setting
`user_version`; the single step `ALTER TABLE history ADD file_id` is a
schema change whose rows the typed model already carries), the
`CREATE TABLE IF NOT EXISTS` batch is a no-op on the modelled file, and
the peer cache is loaded from the `peers` table.  Returns the `History`
object and the database file after opening. -/
def History.create (file : Option DB) : History × Option DB :=
  match file with
  | none => (⟨none, [], []⟩, none)
  | some db =>
    if db.userVersion > SCHEMA_VERSION then
      (⟨none, [], []⟩, some db)
    else
      let db1 := if db.userVersion == SCHEMA_VERSION then db
        else { db with userVersion := SCHEMA_VERSION }
      (⟨some db1, db1.peersTable.map (fun p => (p.public_key, p.id)), []⟩, some db1)

/-! ### Fetching chat history (History::getChatHistory and wrappers) -/

/-- The file payload filled from the joined `file_transfers` columns
(history.cpp:655-662). -/
structure ToxFileRecord where
  resumeFileId : String
  filePath : String
  fileName : String
  filesize : Int
  direction : FileDirection
  status : FileState
deriving DecidableEq

/-- A fetched record is either a content message or a file-transfer
message, "mutually exclusive in the result type" (rowCallback,
history.cpp:642-666: the file branch does not return the content). -/
inductive HistContent
  | text (msg : String)
  | file (f : ToxFileRecord)
deriving DecidableEq

/-- `History::HistMessage` as filled by the rowCallback
(history.cpp:642-666).  `isOfflineMessage` is `row[1].isNull()`: true
when no `faux_offline_pending` row joined. -/
structure HistMessage where
  id : Int
  isOfflineMessage : Bool
  timestamp : Int
  chat : String
  dispName : String
  sender : String
  content : HistContent
deriving DecidableEq

/-- One history row through the joins of the `getChatHistory` query
(history.cpp:669-684): `JOIN peers chat ON history.chat_id = chat.id`,
`JOIN aliases ON sender_alias = aliases.id`, `JOIN peers sender ON
aliases.owner = sender.id`, `LEFT JOIN faux_offline_pending`,
`LEFT JOIN file_transfers ON history.file_id = file_transfers.id`, with
`WHERE timestamp BETWEEN %1 AND %2 AND chat.public_key='%3'`.  The
joined ids are `INTEGER PRIMARY KEY` columns, so at most one partner row
exists and `find?` is the join. -/
def joinHistoryRow (db : DB) (friendPk : String) (fromMs toMs : Int) (hr : HistoryRow) :
    Option HistMessage :=
  if fromMs ≤ hr.timestamp ∧ hr.timestamp ≤ toMs then
    match db.peersTable.find? (fun p => p.id == hr.chat_id) with
    | none => none
    | some chat =>
      if chat.public_key == friendPk then
        match db.aliasesTable.find? (fun a => a.id == hr.sender_alias) with
        | none => none
        | some al =>
          match db.peersTable.find? (fun p => p.id == al.owner) with
          | none => none
          | some sender =>
            let isOffline := !(db.fauxOfflinePending.any (fun i => i == hr.id))
            let content :=
              match hr.file_id.bind (fun fid => db.fileTransfersTable.find? (fun ft => ft.id == fid)) with
              | none => HistContent.text hr.message
              | some ft => HistContent.file
                  ⟨ft.file_restart_id, ft.file_path, ft.file_name, ft.file_size,
                    ft.direction, ft.file_state⟩
            some ⟨hr.id, isOffline, hr.timestamp, chat.public_key, al.display_name,
              sender.public_key, content⟩
      else none
  else none

/-- Ascending order on fetched records by `history.id` (the outer
`ORDER BY T1.id ASC`). -/
def idLE (a b : HistMessage) : Prop := a.id ≤ b.id

/-- Descending order on fetched records by `history.id` (the inner
`ORDER BY history.id DESC`). -/
def idGE (a b : HistMessage) : Prop := b.id ≤ a.id

instance : DecidableRel idLE := fun a b => inferInstanceAs (Decidable (a.id ≤ b.id))

instance : DecidableRel idGE := fun a b => inferInstanceAs (Decidable (b.id ≤ a.id))

instance : IsTotal HistMessage idLE := ⟨fun a b => Int.le_total a.id b.id⟩

instance : IsTotal HistMessage idGE := ⟨fun a b => Int.le_total b.id a.id⟩

instance : IsTrans HistMessage idLE := ⟨fun _ _ _ hab hbc => le_trans hab hbc⟩

instance : IsTrans HistMessage idGE := ⟨fun _ _ _ hab hbc => le_trans hbc hab⟩

/-- `History::getChatHistory` (history.cpp:637-696) run against a
database.  With `numMessages = 0` the base query runs as is (rows in
table order); otherwise the source wraps it as `SELECT * FROM (base
ORDER BY history.id DESC limit %1) AS T1 ORDER BY T1.id ASC`: the
`numMessages` largest ids are selected and returned in ascending id
order. -/
def DB.getChatHistory (db : DB) (friendPk : String) (fromMs toMs : Int) (numMessages : Nat) :
    List HistMessage :=
  let base := db.historyTable.filterMap (joinHistoryRow db friendPk fromMs toMs)
  if numMessages ≠ 0 then
    List.insertionSort idLE ((List.insertionSort idGE base).take numMessages)
  else base

/-- `NUM_MESSAGES_DEFAULT` (history.cpp:37): "arbitrary number of
messages loaded when not loading by date". -/
def NUM_MESSAGES_DEFAULT : Nat := 100

/-- `History::getChatHistoryFromDate` (history.cpp:434-441). -/
def History.getChatHistoryFromDate (h : History) (friendPk : String) (fromMs toMs : Int) :
    List HistMessage :=
  match h.db with
  | none => []
  | some db => db.getChatHistory friendPk fromMs toMs 0

/-- `History::getChatHistoryDefaultNum` (history.cpp:448-455); `nowMs`
models `QDateTime::currentDateTime()`. -/
def History.getChatHistoryDefaultNum (h : History) (friendPk : String) (nowMs : Int) :
    List HistMessage :=
  match h.db with
  | none => []
  | some db => db.getChatHistory friendPk 0 nowMs NUM_MESSAGES_DEFAULT

/-- `History::isHistoryExistence` (history.cpp:131-134). -/
def History.isHistoryExistence (h : History) (friendPk : String) (nowMs : Int) : Bool :=
  !(h.getChatHistoryDefaultNum friendPk nowMs).isEmpty

/-! ### Per-day message counts (History::getChatHistoryCounts) -/

/-- `History::DateMessages`. -/
structure DateMessages where
  count : Nat
  offsetDays : Int
deriving DecidableEq

/-- `timestamp / 1000 / 60 / 60 / 24`, the query's day bucket. -/
def dayOfTs (ts : Int) : Int :=
  ts / 1000 / 60 / 60 / 24

/-- Whether a history row joins a `peers` row with the given public key
(`JOIN peers chat ON chat_id = chat.id ... AND chat.public_key='%3'`). -/
def chatMatches (db : DB) (friendPk : String) (hr : HistoryRow) : Bool :=
  ((db.peersTable.find? (fun p => p.id == hr.chat_id)).map
    (fun p => p.public_key == friendPk)).getD false

/-- Distinct values in first-appearance order: the `GROUP BY` keys. -/
def dedupFirst : List Int → List Int
  | [] => []
  | a :: l => a :: (dedupFirst l).filter (fun b => !(b == a))

/-- `History::getChatHistoryCounts` (history.cpp:465-497).  `from` / `to`
are `QDate`s, modelled by their day numbers since the epoch: `%1` / `%2`
are the dates' start-of-day milliseconds and `%4` is
`QDateTime::fromMSecsSinceEpoch(0).daysTo(fromTime) = fromDay`.  The
query groups the rows of the chat with `timestamp BETWEEN %1 AND %2` by
`(timestamp / 1000 / 60 / 60 / 24) - %4` and returns one
`(COUNT(history.id), day)` pair per group. -/
def History.getChatHistoryCounts (h : History) (friendPk : String) (fromDay toDay : Int) :
    List DateMessages :=
  match h.db with
  | none => []
  | some db =>
    let fromMs := fromDay * 86400000
    let toMs := toDay * 86400000
    let rows := db.historyTable.filter (fun hr =>
      decide (fromMs ≤ hr.timestamp ∧ hr.timestamp ≤ toMs) && chatMatches db friendPk hr)
    let keys := dedupFirst (rows.map (fun hr => dayOfTs hr.timestamp - fromDay))
    keys.map (fun d =>
      ⟨(rows.filter (fun hr => dayOfTs hr.timestamp - fromDay == d)).length, d⟩)

/-! ### Search (History::getDateWhereFindPhrase) -/

/-- `PeriodSearch` as used by history.cpp (the `default` arm of both
switches is `NoneP`). -/
inductive PeriodSearch
  | NoneP
  | WithTheFirst
  | AfterDate
  | BeforeDate
deriving DecidableEq

/-- `FilterSearch` as used by history.cpp (the `default` arm is
`NoneF`: plain case-insensitive substring). -/
inductive FilterSearch
  | NoneF
  | Register
  | WordsOnly
  | RegisterAndWordsOnly
  | Regular
  | RegisterAndRegular
deriving DecidableEq

/-- Outcome of an operation that reaches `db->execNow` / `db->execLater`
without checking `History::isValid` first: on a reset handle the shared
pointer is dereferenced. -/
inductive DbExec (α : Type)
  | result (a : α)
  | nullHandleDeref
deriving DecidableEq

/-- Smallest element of a list of timestamps
(`ORDER BY timestamp ASC LIMIT 1`). -/
def minTs (l : List Int) : Option Int :=
  l.foldl (fun acc t =>
    match acc with
    | none => some t
    | some m => some (min m t)) none

/-- Largest element of a list of timestamps
(`ORDER BY timestamp DESC LIMIT 1`). -/
def maxTs (l : List Int) : Option Int :=
  l.foldl (fun acc t =>
    match acc with
    | none => some t
    | some m => some (max m t)) none

/-- `History::getDateWhereFindPhrase` (history.cpp:507-586), result
level.  The message predicate built from the phrase and the filter mode
(`LIKE` / `REGEXP` / `REGEXPSENSITIVE`, evaluated by SQLite and custom
functions outside this file) is abstracted as `matchesF`.  `fromMs` is
the `from` argument (`none` for an invalid QDateTime, replaced by
`currentDateTime() = nowMs`); for `AfterDate` / `BeforeDate` the anchor
is `parameter.date` (`paramDateMs`).  The function performs no
`isValid()` check: with a reset handle, `db->execNow` dereferences a
null pointer (`DbExec.nullHandleDeref`). -/
def History.getDateWhereFindPhrase (h : History) (friendPk : String) (fromMs : Option Int)
    (matchesF : String → Bool) (period : PeriodSearch) (paramDateMs : Int) (nowMs : Int) :
    DbExec (Option Int) :=
  let date0 := fromMs.getD nowMs
  let date := if period = PeriodSearch.AfterDate ∨ period = PeriodSearch.BeforeDate then
    paramDateMs else date0
  match h.db with
  | none => DbExec.nullHandleDeref
  | some db =>
    let rows := db.historyTable.filter (fun hr =>
      chatMatches db friendPk hr && matchesF hr.message)
    let ts := rows.map (fun hr => hr.timestamp)
    DbExec.result (match period with
      | PeriodSearch.WithTheFirst => minTs ts
      | PeriodSearch.AfterDate => minTs (ts.filter (fun t => date < t))
      | PeriodSearch.BeforeDate => maxTs (ts.filter (fun t => t < date))
      | PeriodSearch.NoneP => maxTs (ts.filter (fun t => t < date)))

/-! ### The generated search query text (QString::arg semantics) -/

/-- Numeric value of a digit character. -/
def digitVal (c : Char) : Nat :=
  c.toNat - 48

/-- The lowest place-marker number in a QString (`%N` with one or two
digits, two-digit markers read greedily), as `QString::arg` finds it;
scanning resumes after each marker. -/
def minMarker : List Char → Option Nat
  | [] => none
  | ['%'] => none
  | '%' :: c :: rest =>
    if c.isDigit then
      match rest with
      | [] => some (digitVal c)
      | c2 :: rest2 =>
        if c2.isDigit then
          match minMarker rest2 with
          | none => some (10 * digitVal c + digitVal c2)
          | some m => some (min (10 * digitVal c + digitVal c2) m)
        else
          match minMarker (c2 :: rest2) with
          | none => some (digitVal c)
          | some m => some (min (digitVal c) m)
    else minMarker (c :: rest)
  | _ :: rest => minMarker rest

/-- Replace every occurrence of place marker `%n` with `a`, leaving other
markers intact (one left-to-right pass, as `QString::arg` replaces the
occurrences of the lowest marker). -/
def replaceMarker (n : Nat) (a : List Char) : List Char → List Char
  | [] => []
  | ['%'] => ['%']
  | '%' :: c :: rest =>
    if c.isDigit then
      match rest with
      | [] => if digitVal c = n then a else ['%', c]
      | c2 :: rest2 =>
        if c2.isDigit then
          if 10 * digitVal c + digitVal c2 = n then a ++ replaceMarker n a rest2
          else '%' :: c :: c2 :: replaceMarker n a rest2
        else
          if digitVal c = n then a ++ replaceMarker n a (c2 :: rest2)
          else '%' :: c :: replaceMarker n a (c2 :: rest2)
    else '%' :: replaceMarker n a (c :: rest)
  | ch :: rest => ch :: replaceMarker n a rest

/-- `QString::arg(a)`: replace all occurrences of the lowest numbered
place marker by `a`; with no marker present the string is returned
unchanged (Qt warns). -/
def qtArg (s arg : String) : String :=
  match minMarker s.data with
  | none => s
  | some n => ⟨replaceMarker n arg.data s.data⟩

/-- `phrase.replace("'", "''")` (history.cpp:515). -/
def escQuotes : List Char → List Char
  | [] => []
  | '\'' :: rest => '\'' :: '\'' :: escQuotes rest
  | c :: rest => c :: escQuotes rest

/-- The phrase after quote-doubling. -/
def qstringEscapeQuotes (s : String) : String :=
  ⟨escQuotes s.data⟩

/-- Modelled from the spec: `SearchExtraFunctions::generateFilterWordsOnly`
lives outside `src/`; per the spec the whole-word modes "compile the
phrase into a word-boundary pattern". -/
def generateFilterWordsOnly (phrase : String) : String :=
  "\\b" ++ phrase ++ "\\b"

/-- The query text built by `History::getDateWhereFindPhrase`
(history.cpp:507-583): the phrase is quote-escaped, a filter condition
and a period clause are rendered with `QString::arg`, and the final text
is `template.arg(friendPk).arg(message).arg(period)`.  Parameters as in
`History.getDateWhereFindPhrase`. -/
def getDateWhereFindPhraseText (friendPk phrase : String) (filter : FilterSearch)
    (period : PeriodSearch) (fromMs : Option Int) (paramDateMs : Int) (nowMs : Int) : String :=
  let phrase1 := qstringEscapeQuotes phrase
  let message := match filter with
    | FilterSearch.Register => qtArg "message LIKE '%%1%'" phrase1
    | FilterSearch.WordsOnly =>
      qtArg "message REGEXP '%1'" (generateFilterWordsOnly phrase1).toLower
    | FilterSearch.RegisterAndWordsOnly =>
      qtArg "REGEXPSENSITIVE(message, '%1')" (generateFilterWordsOnly phrase1)
    | FilterSearch.Regular => qtArg "message REGEXP '%1'" phrase1
    | FilterSearch.RegisterAndRegular => qtArg "REGEXPSENSITIVE(message '%1')" phrase1
    | FilterSearch.NoneF => qtArg "LOWER(message) LIKE '%%1%'" phrase1.toLower
  let date0 := fromMs.getD nowMs
  let date := if period = PeriodSearch.AfterDate ∨ period = PeriodSearch.BeforeDate then
    paramDateMs else date0
  let periodText := match period with
    | PeriodSearch.WithTheFirst => "ORDER BY timestamp ASC LIMIT 1;"
    | PeriodSearch.AfterDate =>
      qtArg "AND timestamp > '%1' ORDER BY timestamp ASC LIMIT 1;" (toString date)
    | PeriodSearch.BeforeDate =>
      qtArg "AND timestamp < '%1' ORDER BY timestamp DESC LIMIT 1;" (toString date)
    | PeriodSearch.NoneP =>
      qtArg "AND timestamp < '%1' ORDER BY timestamp DESC LIMIT 1;" (toString date)
  qtArg (qtArg (qtArg ("SELECT timestamp " ++
    "FROM history " ++
    "LEFT JOIN faux_offline_pending ON history.id = faux_offline_pending.id " ++
    "JOIN peers chat ON chat_id = chat.id " ++
    "WHERE chat.public_key='%1' " ++
    "AND %2 " ++
    "%3") friendPk) message) periodText

/-- The SQL text outside single-quoted string literals (`''` is the
escaped quote inside a literal): what remains when every literal's
content is removed.  Two queries embed their phrases purely as data
exactly when this skeleton is the same for both. -/
def stripLiterals : Bool → List Char → List Char
  | _, [] => []
  | false, '\'' :: rest => '\'' :: stripLiterals true rest
  | false, c :: rest => c :: stripLiterals false rest
  | true, '\'' :: '\'' :: rest => stripLiterals true rest
  | true, '\'' :: rest => '\'' :: stripLiterals false rest
  | true, _ :: rest => stripLiterals true rest

/-- The structure of a generated query: its text with every string
literal blanked. -/
def queryStructure (s : String) : String :=
  ⟨stripLiterals false s.data⟩

/-! ### PeerDirectory sequences (for the id-assignment claims) -/

/-- Distinct strings in first-appearance order. -/
def firstOccurrences : List String → List String
  | [] => []
  | a :: l => a :: (firstOccurrences l).filter (fun b => !(b == a))

/-- The canonical cache: the given keys paired with `n, n+1, n+2, …`. -/
def withIds : List String → Int → List (String × Int)
  | [], _ => []
  | k :: l, n => (k, n) :: withIds l (n + 1)

/-- Folding the source's peer-id resolution over a sequence of
identifiers, starting from a given cache. -/
def runResolvesFrom (ks : List String) (c : List (String × Int)) : List (String × Int) :=
  ks.foldl (fun acc k => (resolvePeerId acc k).1) c

/-- The cache after resolving a sequence of identifiers from an empty
cache (a fresh profile). -/
def runResolves (ks : List String) : List (String × Int) :=
  runResolvesFrom ks []

/-! ### C1: file linking and event order -/

/-- C1: the claim says executing (append file message, then file-row
creation callback, then report transfer finished) and (append file
message, then report transfer finished, then file-row creation callback)
produce an identical final `file_transfers` row and `history.file_id`.
This theorem refutes it on a concrete transfer: with the first order the
row ends `(FINISHED, "/x", "HH")`; with the second,
`History::setFileFinished` records the early outcome and then
history.cpp:425 removes the `fileInfos` entry unconditionally, so
`History::onFileInserted` finds a fresh entry and the finishing update
is lost — the row stays `(CANCELED, "/orig", "")`.  The two
`history.file_id` values do agree (`some 1`), but the rows differ, so
the claimed identity fails. -/
theorem fileLink_orders_differ :
    let base : History × Option Int := ((History.create
      (some ⟨[], [], [], [], [], 1⟩)).1).addNewFileMessage
      true "F" "SESS" "file.bin" "/orig" 42 "S" 100 "disp"
    let hA := (base.1.onFileInserted 1 "SESS").setFileFinished "SESS" true "/x" "HH"
    let hB := (base.1.setFileFinished "SESS" true "/x" "HH").onFileInserted 1 "SESS"
    base.2 = some 1 ∧
    hA.db.map DB.fileTransfersTable =
      some [⟨1, 0, "SESS", "file.bin", "/x", "HH", 42, FileDirection.SENDING,
        FileState.FINISHED⟩] ∧
    hB.db.map DB.fileTransfersTable =
      some [⟨1, 0, "SESS", "file.bin", "/orig", "", 42, FileDirection.SENDING,
        FileState.CANCELED⟩] ∧
    hA.db.map DB.historyTable = hB.db.map DB.historyTable ∧
    hA.db.map DB.fileTransfersTable ≠ hB.db.map DB.fileTransfersTable := by
  decide

/-! ### C2: peer-id assignment -/

theorem firstOccurrences_eq_nil {l : List String} : firstOccurrences l = [] ↔ l = [] := by
  cases l with
  | nil => simp [firstOccurrences]
  | cons a t => simp [firstOccurrences]

theorem mem_firstOccurrences {a : String} : ∀ {l : List String}, a ∈ firstOccurrences l ↔ a ∈ l
  | [] => by simp [firstOccurrences]
  | b :: t => by
    simp only [firstOccurrences, List.mem_cons, List.mem_filter]
    constructor
    · rintro (rfl | ⟨h1, _⟩)
      · exact Or.inl rfl
      · exact Or.inr (mem_firstOccurrences.mp h1)
    · rintro (rfl | h)
      · exact Or.inl rfl
      · by_cases hab : a = b
        · exact Or.inl hab
        · exact Or.inr ⟨mem_firstOccurrences.mpr h, by simp [hab]⟩

theorem firstOccurrences_append (k : String) (l : List String) :
    firstOccurrences (l ++ [k]) = firstOccurrences l ++ (if k ∈ l then [] else [k]) := by
  induction l with
  | nil => simp [firstOccurrences]
  | cons a t ih =>
    rw [List.cons_append]
    rw [firstOccurrences, firstOccurrences]
    rw [ih]
    by_cases hkt : k ∈ t
    · simp [hkt]
    · by_cases hka : k = a
      · simp [hka, hkt]
      · simp [hkt, hka, Ne.symm hka]

theorem withIds_append (k : String) (l : List String) : ∀ (n : Int),
    withIds (l ++ [k]) n = withIds l n ++ [(k, n + l.length)] := by
  induction l with
  | nil => intro n; simp [withIds]
  | cons a t ih =>
    intro n
    rw [List.cons_append, withIds, withIds, ih (n + 1), List.cons_append, List.length_cons]
    rw [show n + ((t.length + 1 : Nat) : Int) = n + 1 + (t.length : Int) from by push_cast; ring]

theorem withIds_eq_nil : ∀ {l : List String} {n : Int}, withIds l n = [] ↔ l = []
  | [], _ => by simp [withIds]
  | _ :: _, _ => by simp [withIds]

theorem qhashLookup_cons_ne {α : Type} {p : String × α} {m : List (String × α)} {k : String}
    (h : ¬p.1 = k) : qhashLookup (p :: m) k = qhashLookup m k := by
  have hb : (p.1 == k) = false := by simp [h]
  simp [qhashLookup, List.find?_cons, hb]

theorem qhashLookup_cons_eq {α : Type} {p : String × α} {m : List (String × α)} {k : String}
    (h : p.1 = k) : qhashLookup (p :: m) k = some p.2 := by
  have hb : (p.1 == k) = true := by simp [h]
  simp [qhashLookup, List.find?_cons, hb]

theorem qhashLookup_withIds_none {k : String} {l : List String} : ∀ {n : Int}, k ∉ l →
    qhashLookup (withIds l n) k = none := by
  induction l with
  | nil => intro n _; rfl
  | cons a t ih =>
    intro n h
    have hne : ¬(((a, n) : String × Int).1 = k) := by
      intro hak
      exact h (List.mem_cons.mpr (Or.inl (by simpa using hak.symm)))
    rw [withIds, qhashLookup_cons_ne hne]
    exact ih (fun hm => h (List.mem_cons_of_mem a hm))

theorem qhashLookup_withIds_isSome {k : String} {l : List String} : ∀ {n : Int}, k ∈ l →
    (qhashLookup (withIds l n) k).isSome = true := by
  induction l with
  | nil => intro n h; exact absurd h (List.not_mem_nil k)
  | cons a t ih =>
    intro n h
    by_cases hak : a = k
    · rw [withIds, qhashLookup_cons_eq hak]
      rfl
    · rw [withIds, qhashLookup_cons_ne hak]
      rcases List.mem_cons.mp h with rfl | hm
      · exact absurd rfl hak
      · exact ih hm

theorem withIds_ne_nil {l : List String} {n : Int} (h : l ≠ []) : withIds l n ≠ [] := by
  cases l with
  | nil => exact absurd rfl h
  | cons a t => simp [withIds]

theorem foldl_max_snd (t : List (String × Int)) : ∀ (a : Int), t ≠ [] →
    t.foldl (fun acc q => max acc q.2) a = max a (maxValues t) := by
  induction t with
  | nil => intro a h; exact absurd rfl h
  | cons q t ih =>
    intro a _
    cases t with
    | nil => simp [maxValues]
    | cons q2 t2 =>
      have hmv : maxValues (q :: q2 :: t2) = max q.2 (maxValues (q2 :: t2)) := by
        rw [show maxValues (q :: q2 :: t2) =
          List.foldl (fun acc p => max acc p.2) q.2 (q2 :: t2) from rfl]
        exact ih q.2 (by simp)
      rw [List.foldl_cons, ih (max a q.2) (by simp), hmv, max_assoc]

theorem maxValues_withIds : ∀ (l : List String) (n : Int), l ≠ [] →
    maxValues (withIds l n) = n + l.length - 1
  | [], _, h => absurd rfl h
  | [k], n, _ => by simp [withIds, maxValues]
  | k :: k2 :: t, n, _ => by
    have ih := maxValues_withIds (k2 :: t) (n + 1) (by simp)
    rw [withIds, show maxValues ((k, n) :: withIds (k2 :: t) (n + 1)) =
      List.foldl (fun acc q => max acc q.2) n (withIds (k2 :: t) (n + 1)) from rfl]
    rw [foldl_max_snd _ _ (withIds_ne_nil (by simp)), ih]
    rw [max_eq_right (by simp only [List.length_cons]; push_cast; omega)]
    simp only [List.length_cons]
    push_cast
    ring

theorem qhashInsert_append {α : Type} {m : List (String × α)} {k : String} {v : α} :
    qhashLookup m k = none → qhashInsert m k v = m ++ [(k, v)] := by
  induction m with
  | nil => intro _; rfl
  | cons p rest ih =>
    intro h
    by_cases hpk : p.1 = k
    · rw [qhashLookup_cons_eq hpk] at h
      exact absurd h (by simp)
    · rw [qhashLookup_cons_ne hpk] at h
      have hb : (p.1 == k) = false := by simp [hpk]
      rw [qhashInsert, hb, List.cons_append]
      simp only [Bool.false_eq_true, if_false, List.cons.injEq, true_and]
      exact ih h

theorem resolvePeerId_canonical (ps : List String) (k : String) :
    (resolvePeerId (withIds (firstOccurrences ps) 0) k).1 =
      withIds (firstOccurrences (ps ++ [k])) 0 := by
  rw [firstOccurrences_append]
  by_cases hk : k ∈ ps
  · rw [if_pos hk, List.append_nil]
    have hmem : k ∈ firstOccurrences ps := mem_firstOccurrences.mpr hk
    have hs := qhashLookup_withIds_isSome (l := firstOccurrences ps) (n := 0) hmem
    unfold resolvePeerId
    match hx : qhashLookup (withIds (firstOccurrences ps) 0) k with
    | some i => rfl
    | none => rw [hx] at hs; exact absurd hs (by simp)
  · rw [if_neg hk]
    have hnone : qhashLookup (withIds (firstOccurrences ps) 0) k = none :=
      qhashLookup_withIds_none (fun hmem => hk (mem_firstOccurrences.mp hmem))
    unfold resolvePeerId
    rw [hnone]
    simp only
    rw [qhashInsert_append hnone, withIds_append]
    by_cases hps : ps = []
    · subst hps
      rfl
    · have hfo : firstOccurrences ps ≠ [] := fun hx => hps (firstOccurrences_eq_nil.mp hx)
      have hie : (withIds (firstOccurrences ps) 0).isEmpty = false := by
        cases hwl : withIds (firstOccurrences ps) 0 with
        | nil => exact absurd hwl (withIds_ne_nil hfo)
        | cons q r => rfl
      rw [hie]
      simp only [Bool.false_eq_true, if_false]
      rw [maxValues_withIds _ _ hfo]
      rw [show (0 : Int) + (firstOccurrences ps).length - 1 + 1 =
        0 + (firstOccurrences ps).length from by ring]

theorem runResolvesFrom_canonical : ∀ (ks ps : List String),
    runResolvesFrom ks (withIds (firstOccurrences ps) 0) =
      withIds (firstOccurrences (ps ++ ks)) 0
  | [], ps => by simp [runResolvesFrom]
  | k :: ks, ps => by
    have h1 : runResolvesFrom (k :: ks) (withIds (firstOccurrences ps) 0) =
        runResolvesFrom ks ((resolvePeerId (withIds (firstOccurrences ps) 0) k).1) := rfl
    rw [h1, resolvePeerId_canonical ps k, runResolvesFrom_canonical ks (ps ++ [k])]
    rw [List.append_assoc]
    rfl

/-- The cache built by any sequence of peer resolutions from a fresh
profile is canonical: the distinct identifiers in first-seen order,
paired with `0, 1, 2, …`. -/
theorem runResolves_canonical (ks : List String) :
    runResolves ks = withIds (firstOccurrences ks) 0 := by
  have h := runResolvesFrom_canonical ks []
  simpa [runResolves, firstOccurrences, withIds] using h

/-- C2 (amended): for every sequence of peer resolutions performed by
`History::generateNewMessageQueries` (one per identifier occurrence, two
per addMessage call) on a fresh store, the cache equals the distinct
identifiers in first-seen order paired with ids `0, 1, 2, …` — so ids
start at `0`, strictly increase in identifier-first-seen order, and no
id repeats; and resolving an already-seen identifier returns its cached
id and leaves the cache (hence every assignment) unchanged.  The
original claim's "never reused across interleaved eraseHistoryForPeer
calls" is refuted by `peer_id_reused_after_erase`. -/
theorem peerDirectory_id_assignment (ks : List String) :
    runResolves ks = withIds (firstOccurrences ks) 0 ∧
    (∀ k, k ∈ ks → ∃ i, qhashLookup (runResolves ks) k = some i ∧
      resolvePeerId (runResolves ks) k = (runResolves ks, i, false)) := by
  refine ⟨runResolves_canonical ks, fun k hk => ?_⟩
  have hmem : k ∈ firstOccurrences ks := mem_firstOccurrences.mpr hk
  have hs : (qhashLookup (runResolves ks) k).isSome = true := by
    rw [runResolves_canonical ks]
    exact qhashLookup_withIds_isSome hmem
  match hx : qhashLookup (runResolves ks) k with
  | some i =>
    refine ⟨i, rfl, ?_⟩
    unfold resolvePeerId
    rw [hx]
  | none => rw [hx] at hs; exact absurd hs (by simp)

/-- Witness for `peerDirectory_id_assignment` at a concrete sequence. -/
theorem peerDirectory_id_assignment_witness :
    runResolves ["A", "B", "A"] = withIds (firstOccurrences ["A", "B", "A"]) 0 ∧
    (∃ i, qhashLookup (runResolves ["A", "B", "A"]) "A" = some i ∧
      resolvePeerId (runResolves ["A", "B", "A"]) "A" =
        (runResolves ["A", "B", "A"], i, false)) :=
  ⟨(peerDirectory_id_assignment ["A", "B", "A"]).1,
   (peerDirectory_id_assignment ["A", "B", "A"]).2 "A" (by decide)⟩

/-- C2 counterexample: the claim says an id, once assigned, is never
reused within a live store, including across interleaved
`eraseHistoryForPeer` calls.  On the code, adding peers A and B (ids 0
and 1), erasing B's history (which drops B from the cache), and then
adding C assigns C the id `max(remaining ids) + 1 = 1` — B's old id. -/
theorem peer_id_reused_after_erase :
    let h0 := (History.create (some ⟨[], [], [], [], [], 1⟩)).1
    let h1 := (h0.addNewMessage true "A" "m" "A" 1 true "dA").1
    let h2 := (h1.addNewMessage true "B" "m" "B" 2 true "dB").1
    let h3 := h2.removeFriendHistory "B"
    let h4 := (h3.addNewMessage true "C" "m" "C" 3 true "dC").1
    qhashLookup h2.peers "B" = some 1 ∧
    qhashContains h3.peers "B" = false ∧
    qhashLookup h4.peers "C" = some 1 ∧
    (h4.db.map (fun d => d.peersTable.map (fun p => p.id))) = some [0, 1] := by
  decide

/-! ### C6: schema newer than supported -/

/-- C6: opening a store whose `user_version` exceeds `SCHEMA_VERSION`
resets the handle (StoreUnavailable) and writes nothing, and the
operations guarded by `History::isValid` then return empty results or
no-op — but the claim's "every subsequent read operation returns an
empty result" fails: `History::getDateWhereFindPhrase` has no
`isValid()` guard and calls `db->execNow` on the reset handle, a null
dereference rather than an empty result. -/
theorem schemaTooNew_reads_hit_null_handle :
    let tooNew : DB := ⟨[⟨0, "A"⟩], [⟨1, 0, "d"⟩], [⟨1, 5, 0, 1, "hi", none⟩], [], [1], 2⟩
    let opened := History.create (some tooNew)
    let h := opened.1
    h.isValid = false ∧
    opened.2 = some tooNew ∧
    h.addNewMessage true "A" "m" "A" 7 false "d" = (h, none) ∧
    h.markAsSent 1 = h ∧
    h.eraseHistory = h ∧
    h.removeFriendHistory "A" = h ∧
    h.getChatHistoryFromDate "A" 0 10 = [] ∧
    h.getChatHistoryDefaultNum "A" 10 = [] ∧
    h.getChatHistoryCounts "A" 0 1 = [] ∧
    h.isHistoryExistence "A" 10 = false ∧
    (∀ matchesF : String → Bool,
      h.getDateWhereFindPhrase "A" (some 0) matchesF PeriodSearch.NoneP 0 10 =
        DbExec.nullHandleDeref) :=
  ⟨rfl, rfl, rfl, rfl, rfl, rfl, rfl, rfl, rfl, rfl, fun _ => rfl⟩

/-! ### C8: search phrases and query structure -/

set_option maxRecDepth 100000 in
/-- C8: the claim says no phrase can alter the structure of the
generated query.  The phrase is only quote-escaped (history.cpp:515) and
then rendered through chained `QString::arg` calls; a phrase containing
`%1` is itself treated as the lowest remaining place marker by the final
`.arg(period)`, so the period clause is substituted inside the `LIKE`
literal (whose embedded quotes then terminate the literal mid-way) and
the template's `%3` slot is left unfilled: the query's
literal-stripped skeleton changes with the phrase. -/
theorem searchPhrase_alters_query_structure :
    let mode : FilterSearch := FilterSearch.Register
    let qInj := getDateWhereFindPhraseText "K" "%1" mode PeriodSearch.NoneP (some 0) 0 5
    let qPlain := getDateWhereFindPhraseText "K" "a" mode PeriodSearch.NoneP (some 0) 0 5
    qInj = "SELECT timestamp FROM history LEFT JOIN faux_offline_pending " ++
      "ON history.id = faux_offline_pending.id JOIN peers chat ON chat_id = chat.id " ++
      "WHERE chat.public_key='K' AND message LIKE " ++
      "'%AND timestamp < '0' ORDER BY timestamp DESC LIMIT 1;%' %3" ∧
    qPlain = "SELECT timestamp FROM history LEFT JOIN faux_offline_pending " ++
      "ON history.id = faux_offline_pending.id JOIN peers chat ON chat_id = chat.id " ++
      "WHERE chat.public_key='K' AND message LIKE " ++
      "'%a%' AND timestamp < '0' ORDER BY timestamp DESC LIMIT 1;" ∧
    queryStructure qInj ≠ queryStructure qPlain := by
  decide

/-! ### C9: per-day counts -/

/-- C9 counterexample: the claim says the day key is the integer day
offset since the epoch.  For a message on day 2 since the epoch queried
with `from` = day 1, the code returns the key
`timestamp/1000/60/60/24 - daysTo(epoch, from) = 2 - 1 = 1`, not `2`:
the key is the offset from the query's start date. -/
theorem countPerDay_key_not_epoch_offset :
    let db : DB := ⟨[⟨0, "K"⟩], [⟨1, 0, "d"⟩], [⟨1, 172800005, 0, 1, "hi", none⟩], [], [], 1⟩
    let h : History := ⟨some db, [("K", 0)], []⟩
    h.getChatHistoryCounts "K" 1 3 = [⟨1, 1⟩] ∧
    dayOfTs 172800005 = 2 ∧
    (1 : Int) ≠ 2 := by
  decide

/-! ### C7: pending-delivery markers -/

theorem aliasInsertOrIgnore_fauxOfflinePending (db : DB) (o : Int) (dn : String) :
    (aliasInsertOrIgnore db o dn).1.fauxOfflinePending = db.fauxOfflinePending := by
  unfold aliasInsertOrIgnore
  split <;> rfl

theorem generateNewMessageQueries_pending_notSent (peers : List (String × Int)) (db : DB)
    (fp m s : String) (t : Int) (dn : String) :
    (generateNewMessageQueries peers db fp m s t false dn).2.1.fauxOfflinePending =
      db.fauxOfflinePending ++ [(generateNewMessageQueries peers db fp m s t false dn).2.2] := by
  simp only [generateNewMessageQueries, Bool.false_eq_true, if_false,
    aliasInsertOrIgnore_fauxOfflinePending]
  split <;> split <;> rfl

/-- C7: a message appended with `delivered = false` creates a
`faux_offline_pending` marker carrying the generated message id;
`markDelivered` (History::markAsSent) removes exactly that marker,
touching no other table and no in-memory state; and `markDelivered` on
an id with no marker (an unknown id included) is a no-op that changes
no state at all. -/
theorem pendingMarker_lifecycle (h : History) (db : DB)
    (friendPk msg sender disp : String) (t : Int) (hdb : h.db = some db) :
    (let r := h.addNewMessage true friendPk msg sender t false disp
     ∃ db1 mid, r.1.db = some db1 ∧ r.2 = some mid ∧
       mid ∈ db1.fauxOfflinePending ∧
       ∃ db2, (r.1.markAsSent mid).db = some db2 ∧
         (r.1.markAsSent mid).peers = r.1.peers ∧
         (r.1.markAsSent mid).fileInfos = r.1.fileInfos ∧
         db2.historyTable = db1.historyTable ∧
         db2.aliasesTable = db1.aliasesTable ∧
         db2.peersTable = db1.peersTable ∧
         db2.fileTransfersTable = db1.fileTransfersTable ∧
         (∀ x : Int, x ∈ db2.fauxOfflinePending ↔ x ∈ db1.fauxOfflinePending ∧ x ≠ mid)) ∧
    (∀ (h2 : History) (db0 : DB) (x : Int), h2.db = some db0 →
      x ∉ db0.fauxOfflinePending → h2.markAsSent x = h2) := by
  constructor
  · simp only [History.addNewMessage, hdb, Bool.not_true, Bool.false_eq_true, if_false]
    refine ⟨(generateNewMessageQueries h.peers db friendPk msg sender t false disp).2.1,
      (generateNewMessageQueries h.peers db friendPk msg sender t false disp).2.2,
      rfl, rfl, ?_, ?_⟩
    · rw [generateNewMessageQueries_pending_notSent]
      simp
    · refine ⟨_, rfl, rfl, rfl, rfl, rfl, rfl, rfl, ?_⟩
      intro x
      simp [List.mem_filter]
  · intro h2 db0 x hdb2 hx
    have hfil : db0.fauxOfflinePending.filter (fun i => !(i == x)) = db0.fauxOfflinePending := by
      refine List.filter_eq_self.mpr (fun i hi => ?_)
      simp only [Bool.not_eq_true', beq_eq_false_iff_ne, ne_eq]
      exact fun he => hx (he ▸ hi)
    cases h2 with
    | mk dbf peersf fif =>
      simp only at hdb2
      subst hdb2
      simp only [History.markAsSent, hfil]

/-- Witness for `pendingMarker_lifecycle` at a concrete store. -/
theorem pendingMarker_lifecycle_witness :
    (let h : History := ⟨some ⟨[], [], [], [], [], 1⟩, [], []⟩
     let r := h.addNewMessage true "A" "hi" "A" 1000 false "d"
     ∃ db1 mid, r.1.db = some db1 ∧ r.2 = some mid ∧
       mid ∈ db1.fauxOfflinePending ∧
       ∃ db2, (r.1.markAsSent mid).db = some db2 ∧
         (r.1.markAsSent mid).peers = r.1.peers ∧
         (r.1.markAsSent mid).fileInfos = r.1.fileInfos ∧
         db2.historyTable = db1.historyTable ∧
         db2.aliasesTable = db1.aliasesTable ∧
         db2.peersTable = db1.peersTable ∧
         db2.fileTransfersTable = db1.fileTransfersTable ∧
         (∀ x : Int, x ∈ db2.fauxOfflinePending ↔ x ∈ db1.fauxOfflinePending ∧ x ≠ mid)) ∧
    (∀ (h2 : History) (db0 : DB) (x : Int), h2.db = some db0 →
      x ∉ db0.fauxOfflinePending → h2.markAsSent x = h2) :=
  pendingMarker_lifecycle ⟨some ⟨[], [], [], [], [], 1⟩, [], []⟩ ⟨[], [], [], [], [], 1⟩
    "A" "hi" "A" "d" 1000 rfl

/-! ### C5: erasing one peer's history -/

theorem joinHistoryRow_eq_none (db1 : DB) (pk : String) (a b : Int) (hr : HistoryRow)
    (hno : ∀ chat ∈ db1.peersTable, chat.id = hr.chat_id → chat.public_key ≠ pk) :
    joinHistoryRow db1 pk a b hr = none := by
  unfold joinHistoryRow
  split
  · cases hc : db1.peersTable.find? (fun p => p.id == hr.chat_id) with
    | none => rfl
    | some chat =>
      have hmem := List.mem_of_find?_eq_some hc
      have hpred := List.find?_some hc
      simp only [beq_iff_eq] at hpred
      have hne : chat.public_key ≠ pk := hno chat hmem hpred
      have hb : (chat.public_key == pk) = false := beq_eq_false_iff_ne.mpr hne
      dsimp only
      rw [hb]
      simp
  · rfl

/-- C5: for a peer present in the store,
`eraseHistoryForPeer` (History::removeFriendHistory) removes exactly
that peer's history rows, alias rows, peer row, file-transfer rows and
pending-delivery markers (those joining one of the peer's history rows),
leaves every other peer's rows in all five tables, and `hasHistory`
(History::isHistoryExistence) returns false afterwards.  `hpk` is the
`public_key UNIQUE` constraint: every `peers` row carrying `pk` is the
cached row `i`. -/
theorem removeFriendHistory_exact (h : History) (db : DB) (pk : String) (i : Int) (nowMs : Int)
    (hdb : h.db = some db) (hcache : qhashLookup h.peers pk = some i)
    (hpk : ∀ p ∈ db.peersTable, p.public_key = pk → p.id = i) :
    ∃ db2, (h.removeFriendHistory pk).db = some db2 ∧
      (∀ r, r ∈ db2.historyTable ↔ r ∈ db.historyTable ∧ r.chat_id ≠ i) ∧
      (∀ al, al ∈ db2.aliasesTable ↔ al ∈ db.aliasesTable ∧ al.owner ≠ i) ∧
      (∀ p, p ∈ db2.peersTable ↔ p ∈ db.peersTable ∧ p.id ≠ i) ∧
      (∀ ft, ft ∈ db2.fileTransfersTable ↔ ft ∈ db.fileTransfersTable ∧ ft.chat_id ≠ i) ∧
      (∀ pid, pid ∈ db2.fauxOfflinePending ↔ pid ∈ db.fauxOfflinePending ∧
        ¬ ∃ r, r ∈ db.historyTable ∧ r.id = pid ∧ r.chat_id = i) ∧
      (h.removeFriendHistory pk).isHistoryExistence pk nowMs = false := by
  simp only [History.removeFriendHistory, hdb, hcache]
  refine ⟨_, rfl, ?_, ?_, ?_, ?_, ?_, ?_⟩
  · intro r
    simp [List.mem_filter]
  · intro al
    simp [List.mem_filter]
  · intro p
    simp [List.mem_filter]
  · intro ft
    simp [List.mem_filter]
  · intro pid
    simp [List.mem_filter, List.any_eq_true]
  · simp only [History.isHistoryExistence, History.getChatHistoryDefaultNum]
    have hbase : (db.historyTable.filter (fun hr => !(hr.chat_id == i))).filterMap
        (joinHistoryRow { db with
          fauxOfflinePending := db.fauxOfflinePending.filter (fun pid =>
            !(db.historyTable.any (fun hr => hr.id == pid && hr.chat_id == i))),
          historyTable := db.historyTable.filter (fun hr => !(hr.chat_id == i)),
          aliasesTable := db.aliasesTable.filter (fun al => !(al.owner == i)),
          peersTable := db.peersTable.filter (fun p => !(p.id == i)),
          fileTransfersTable := db.fileTransfersTable.filter (fun ft => !(ft.chat_id == i)) }
          pk 0 nowMs) = [] := by
      refine List.filterMap_eq_nil_iff.mpr (fun hr _ => ?_)
      refine joinHistoryRow_eq_none _ pk 0 nowMs hr (fun chat hchat _ hpkeq => ?_)
      simp only [List.mem_filter, Bool.not_eq_true', beq_eq_false_iff_ne] at hchat
      exact hchat.2 (hpk chat hchat.1 hpkeq)
    simp only [DB.getChatHistory, hbase]
    rfl

/-- Witness for `removeFriendHistory_exact` at a concrete two-peer store. -/
theorem removeFriendHistory_exact_witness :
    (let db : DB := ⟨[⟨0, "A"⟩, ⟨1, "B"⟩], [⟨1, 0, "dA"⟩, ⟨2, 1, "dB"⟩],
       [⟨1, 10, 0, 1, "x", none⟩, ⟨2, 20, 1, 2, "y", none⟩],
       [⟨1, 1, "r", "n", "p", "hh", 5, FileDirection.SENDING, FileState.CANCELED⟩], [2], 1⟩
     let h : History := ⟨some db, [("A", 0), ("B", 1)], []⟩
     ∃ db2, (h.removeFriendHistory "B").db = some db2 ∧
       (∀ r, r ∈ db2.historyTable ↔ r ∈ db.historyTable ∧ r.chat_id ≠ 1) ∧
       (∀ al, al ∈ db2.aliasesTable ↔ al ∈ db.aliasesTable ∧ al.owner ≠ 1) ∧
       (∀ p, p ∈ db2.peersTable ↔ p ∈ db.peersTable ∧ p.id ≠ 1) ∧
       (∀ ft, ft ∈ db2.fileTransfersTable ↔ ft ∈ db.fileTransfersTable ∧ ft.chat_id ≠ 1) ∧
       (∀ pid, pid ∈ db2.fauxOfflinePending ↔ pid ∈ db.fauxOfflinePending ∧
         ¬ ∃ r, r ∈ db.historyTable ∧ r.id = pid ∧ r.chat_id = 1) ∧
       (h.removeFriendHistory "B").isHistoryExistence "B" 50 = false) :=
  removeFriendHistory_exact _ _ "B" 1 50 rfl rfl (by decide)

/-! ### C4: alias resolution -/

theorem qhashLookup_qhashInsert_self {α : Type} (m : List (String × α)) (k : String) (v : α) :
    qhashLookup (qhashInsert m k v) k = some v := by
  induction m with
  | nil => rw [qhashInsert, qhashLookup_cons_eq rfl]
  | cons p rest ih =>
    by_cases hpk : p.1 = k
    · rw [qhashInsert, if_pos (by simp [hpk]), qhashLookup_cons_eq rfl]
    · rw [qhashInsert, if_neg (by simp [hpk]), qhashLookup_cons_ne hpk]
      exact ih

theorem qhashLookup_qhashInsert_ne {α : Type} (m : List (String × α)) (k k2 : String) (v : α)
    (hne : k ≠ k2) : qhashLookup (qhashInsert m k2 v) k = qhashLookup m k := by
  induction m with
  | nil =>
    rw [qhashInsert, qhashLookup_cons_ne (fun h2 => hne h2.symm)]
  | cons p rest ih =>
    by_cases hpk2 : p.1 = k2
    · rw [qhashInsert, if_pos (by simp [hpk2]),
        qhashLookup_cons_ne (fun h2 => hne h2.symm),
        qhashLookup_cons_ne (fun h2 => hne (hpk2 ▸ h2).symm)]
    · by_cases hpk : p.1 = k
      · rw [qhashInsert, if_neg (by simp [hpk2]), qhashLookup_cons_eq hpk,
          qhashLookup_cons_eq hpk]
      · rw [qhashInsert, if_neg (by simp [hpk2]), qhashLookup_cons_ne hpk,
          qhashLookup_cons_ne hpk]
        exact ih

theorem resolvePeerId_hit {c : List (String × Int)} {k : String} {v : Int}
    (h : qhashLookup c k = some v) : resolvePeerId c k = (c, v, false) := by
  unfold resolvePeerId
  rw [h]

theorem resolvePeerId_lookup_self (c : List (String × Int)) (k : String) :
    qhashLookup (resolvePeerId c k).1 k = some (resolvePeerId c k).2.1 := by
  unfold resolvePeerId
  cases hl : qhashLookup c k with
  | some i => exact hl
  | none =>
    dsimp only
    exact qhashLookup_qhashInsert_self c k _

theorem resolvePeerId_lookup_mono {c : List (String × Int)} {k : String} {v : Int}
    (h : qhashLookup c k = some v) (k2 : String) :
    qhashLookup (resolvePeerId c k2).1 k = some v := by
  unfold resolvePeerId
  cases hl : qhashLookup c k2 with
  | some i => exact h
  | none =>
    dsimp only
    have hkk : k ≠ k2 := fun he => by rw [he, hl] at h; exact Option.noConfusion h
    rw [qhashLookup_qhashInsert_ne _ _ _ _ hkk]
    exact h

theorem init_le_foldl_max (l : List Int) : ∀ (a : Int), a ≤ l.foldl max a := by
  induction l with
  | nil => intro a; exact le_refl a
  | cons b t ih =>
    intro a
    rw [List.foldl_cons]
    exact le_trans (le_max_left a b) (ih (max a b))

theorem le_foldl_max (l : List Int) : ∀ (a x : Int), x ∈ l → x ≤ l.foldl max a := by
  induction l with
  | nil => intro a x hx; exact absurd hx (List.not_mem_nil x)
  | cons b t ih =>
    intro a x hx
    rw [List.foldl_cons]
    rcases List.mem_cons.mp hx with rfl | hxt
    · exact le_trans (le_max_right a x) (init_le_foldl_max t (max a x))
    · exact ih (max a b) x hxt

theorem nextRowid_fresh {ids : List Int} {x : Int} (hx : x ∈ ids) : x < nextRowid ids := by
  unfold nextRowid
  have := le_foldl_max ids 0 x hx
  omega

theorem aliasPairwise_append_fresh {l : List AliasRow} {r : AliasRow}
    (hp : l.Pairwise (fun a2 b2 => a2.id ≠ b2.id))
    (hf : ∀ x ∈ l, x.id ≠ r.id) :
    (l ++ [r]).Pairwise (fun a2 b2 => a2.id ≠ b2.id) := by
  rw [List.pairwise_append]
  refine ⟨hp, List.pairwise_singleton _ _, fun x hx y hy => ?_⟩
  rw [List.mem_singleton] at hy
  subst hy
  exact hf x hx

theorem aliasStep_spec (d : DB) (o : Int) (dn : String) :
    ∃ arow : AliasRow,
      (aliasInsertOrIgnore d o dn).1.aliasesTable.find?
        (fun a2 => a2.owner == o && a2.display_name == dn) = some arow ∧
      aliasIdExpr (aliasInsertOrIgnore d o dn).1 o dn (aliasInsertOrIgnore d o dn).2.1
        (aliasInsertOrIgnore d o dn).2.2 = arow.id ∧
      ((aliasInsertOrIgnore d o dn).1.aliasesTable = d.aliasesTable ∨
        ((aliasInsertOrIgnore d o dn).1.aliasesTable = d.aliasesTable ++ [arow] ∧
         arow.id = nextRowid (d.aliasesTable.map (fun a2 => a2.id)))) := by
  unfold aliasInsertOrIgnore
  cases hfind : d.aliasesTable.find? (fun a2 => a2.owner == o && a2.display_name == dn) with
  | some arow =>
    dsimp only
    refine ⟨arow, hfind, ?_, Or.inl rfl⟩
    unfold aliasIdExpr
    rw [if_pos rfl, hfind]
    rfl
  | none =>
    dsimp only
    refine ⟨⟨nextRowid (d.aliasesTable.map (fun a2 => a2.id)), o, dn⟩, ?_, ?_, Or.inr ⟨rfl, rfl⟩⟩
    · rw [List.find?_append, hfind]
      simp [List.find?]
    · unfold aliasIdExpr
      rw [if_neg (by simp)]

theorem generateNewMessageQueries_alias_spec (peers : List (String × Int)) (db : DB)
    (fp m s : String) (t : Int) (isSent : Bool) (dn : String) :
    ∃ arow : AliasRow,
      (generateNewMessageQueries peers db fp m s t isSent dn).2.1.aliasesTable.find?
        (fun a2 => a2.owner == (resolvePeerId (resolvePeerId peers fp).1 s).2.1 &&
          a2.display_name == dn) = some arow ∧
      (∃ hlast, (generateNewMessageQueries peers db fp m s t isSent dn).2.1.historyTable.getLast?
        = some hlast ∧ hlast.sender_alias = arow.id) ∧
      ((generateNewMessageQueries peers db fp m s t isSent dn).2.1.aliasesTable =
        db.aliasesTable ∨
       ((generateNewMessageQueries peers db fp m s t isSent dn).2.1.aliasesTable =
         db.aliasesTable ++ [arow] ∧
        arow.id = nextRowid (db.aliasesTable.map (fun a2 => a2.id)))) ∧
      (generateNewMessageQueries peers db fp m s t isSent dn).1 =
        (resolvePeerId (resolvePeerId peers fp).1 s).1 := by
  simp only [generateNewMessageQueries]
  set r1 := resolvePeerId peers fp with hr1
  set db1 := if r1.2.2 = true then
    { db with peersTable := db.peersTable ++ [⟨r1.2.1, fp⟩] } else db with hdb1
  set r2 := resolvePeerId r1.1 s with hr2
  set db2 := if r2.2.2 = true then
    { db1 with peersTable := db1.peersTable ++ [⟨r2.2.1, s⟩] } else db1 with hdb2
  have hal2 : db2.aliasesTable = db.aliasesTable := by
    rw [hdb2, hdb1]
    split <;> split <;> rfl
  obtain ⟨arow, hfind, haid, hdisj⟩ := aliasStep_spec db2 r2.2.1 dn
  refine ⟨arow, ?_, ?_, ?_, trivial⟩
  · simp only [apply_ite DB.aliasesTable, ite_self]
    exact hfind
  · simp only [apply_ite DB.historyTable, ite_self]
    refine ⟨_, List.getLast?_concat _, ?_⟩
    exact haid
  · simp only [apply_ite DB.aliasesTable, ite_self]
    rw [← hal2]
    exact hdisj

theorem aliasStep_wf {dprev dnext : List AliasRow} {arow : AliasRow}
    (hwf : dprev.Pairwise (fun x y => x.id ≠ y.id))
    (hdisj : dnext = dprev ∨
      (dnext = dprev ++ [arow] ∧ arow.id = nextRowid (dprev.map (fun a2 => a2.id)))) :
    dnext.Pairwise (fun x y => x.id ≠ y.id) := by
  rcases hdisj with rfl | ⟨rfl, hfresh⟩
  · exact hwf
  · refine aliasPairwise_append_fresh hwf (fun x hx => ?_)
    have hmm : x.id ∈ dprev.map (fun a2 => a2.id) := List.mem_map_of_mem _ hx
    have hlt := nextRowid_fresh hmm
    omega

theorem aliasStep_mem {dprev dnext : List AliasRow} {arow x : AliasRow}
    (hdisj : dnext = dprev ∨
      (dnext = dprev ++ [arow] ∧ arow.id = nextRowid (dprev.map (fun a2 => a2.id))))
    (hx : x ∈ dprev) : x ∈ dnext := by
  rcases hdisj with rfl | ⟨rfl, _⟩
  · exact hx
  · exact List.mem_append_left _ hx

theorem aliasStep_find_mono {dprev dnext : List AliasRow} {arow arow1 : AliasRow}
    {p : AliasRow → Bool}
    (hdisj : dnext = dprev ∨
      (dnext = dprev ++ [arow] ∧ arow.id = nextRowid (dprev.map (fun a2 => a2.id))))
    (hf : dprev.find? p = some arow1) : dnext.find? p = some arow1 := by
  rcases hdisj with rfl | ⟨rfl, _⟩
  · exact hf
  · rw [List.find?_append, hf]
    rfl

theorem addNewMessage_eq (h : History) (db : DB) (fp m s : String) (t : Int) (b : Bool)
    (dn : String) (hdb : h.db = some db) :
    h.addNewMessage true fp m s t b dn =
      ({ h with
          db := some (generateNewMessageQueries h.peers db fp m s t b dn).2.1
          peers := (generateNewMessageQueries h.peers db fp m s t b dn).1 },
       some (generateNewMessageQueries h.peers db fp m s t b dn).2.2) := by
  simp only [History.addNewMessage, hdb, Bool.not_true, Bool.false_eq_true, if_false]

/-- C4: two messages appended with the same (sender, displayName) pair
store the same `sender_alias` id on their history rows — the id the
`changes()`-conditional expression recovers (existing-alias lookup when
the insert-or-ignore changed nothing, `last_insert_rowid()` otherwise) —
while a message with a changed display name for the same sender stores a
different alias id.  `hwf` is the `aliases` primary-key uniqueness. -/
theorem alias_same_name_same_id (h : History) (db : DB) (fp m1 m2 m3 s : String)
    (t1 t2 t3 : Int) (b1 b2 b3 : Bool) (dnA dnC : String)
    (hdb : h.db = some db) (hwf : db.aliasesTable.Pairwise (fun x y => x.id ≠ y.id))
    (hdn : dnA ≠ dnC) :
    ∀ rA rB rC : History × Option Int,
      rA = h.addNewMessage true fp m1 s t1 b1 dnA →
      rB = rA.1.addNewMessage true fp m2 s t2 b2 dnA →
      rC = rB.1.addNewMessage true fp m3 s t3 b3 dnC →
      ∃ (dbA dbB dbC : DB) (aA aB aC : Int),
        rA.1.db = some dbA ∧ rB.1.db = some dbB ∧ rC.1.db = some dbC ∧
        (∃ hl, dbA.historyTable.getLast? = some hl ∧ hl.sender_alias = aA) ∧
        (∃ hl, dbB.historyTable.getLast? = some hl ∧ hl.sender_alias = aB) ∧
        (∃ hl, dbC.historyTable.getLast? = some hl ∧ hl.sender_alias = aC) ∧
        aB = aA ∧ aC ≠ aA := by
  intro rA rB rC hrA hrB hrC
  have hrA2 : rA = _ := hrA.trans (addNewMessage_eq h db fp m1 s t1 b1 dnA hdb)
  subst hrA2
  have hrB2 : rB = _ := hrB.trans (addNewMessage_eq _ _ fp m2 s t2 b2 dnA rfl)
  subst hrB2
  have hrC2 : rC = _ := hrC.trans (addNewMessage_eq _ _ fp m3 s t3 b3 dnC rfl)
  subst hrC2
  dsimp only
  obtain ⟨arow1, hfind1, ⟨hl1, hget1, hsa1⟩, hdisj1, hcache1⟩ :=
    generateNewMessageQueries_alias_spec h.peers db fp m1 s t1 b1 dnA
  obtain ⟨arow2, hfind2, ⟨hl2, hget2, hsa2⟩, hdisj2, hcache2⟩ :=
    generateNewMessageQueries_alias_spec
      (generateNewMessageQueries h.peers db fp m1 s t1 b1 dnA).1
      (generateNewMessageQueries h.peers db fp m1 s t1 b1 dnA).2.1 fp m2 s t2 b2 dnA
  obtain ⟨arow3, hfind3, ⟨hl3, hget3, hsa3⟩, hdisj3, hcache3⟩ :=
    generateNewMessageQueries_alias_spec
      (generateNewMessageQueries
        (generateNewMessageQueries h.peers db fp m1 s t1 b1 dnA).1
        (generateNewMessageQueries h.peers db fp m1 s t1 b1 dnA).2.1 fp m2 s t2 b2 dnA).1
      (generateNewMessageQueries
        (generateNewMessageQueries h.peers db fp m1 s t1 b1 dnA).1
        (generateNewMessageQueries h.peers db fp m1 s t1 b1 dnA).2.1 fp m2 s t2 b2 dnA).2.1
      fp m3 s t3 b3 dnC
  have hfpSelf := resolvePeerId_lookup_self h.peers fp
  have hfpC1 := resolvePeerId_lookup_mono hfpSelf s
  have hsSelf := resolvePeerId_lookup_self (resolvePeerId h.peers fp).1 s
  have hrfp := resolvePeerId_hit hfpC1
  have hres2 : resolvePeerId (resolvePeerId (resolvePeerId (resolvePeerId h.peers fp).1 s).1
      fp).1 s =
      ((resolvePeerId (resolvePeerId h.peers fp).1 s).1,
       (resolvePeerId (resolvePeerId h.peers fp).1 s).2.1, false) := by
    rw [hrfp]
    exact resolvePeerId_hit hsSelf
  have hsid2 : (resolvePeerId (resolvePeerId
      (generateNewMessageQueries h.peers db fp m1 s t1 b1 dnA).1 fp).1 s).2.1 =
      (resolvePeerId (resolvePeerId h.peers fp).1 s).2.1 := by
    rw [hcache1, hres2]
  have hpred2 : (fun a2 : AliasRow => a2.owner == (resolvePeerId (resolvePeerId
      (generateNewMessageQueries h.peers db fp m1 s t1 b1 dnA).1 fp).1 s).2.1 &&
        a2.display_name == dnA) =
      (fun a2 : AliasRow => a2.owner == (resolvePeerId (resolvePeerId h.peers fp).1 s).2.1 &&
        a2.display_name == dnA) := by
    funext a2
    rw [hsid2]
  rw [hpred2] at hfind2
  have hcacheC2 : (generateNewMessageQueries
      (generateNewMessageQueries h.peers db fp m1 s t1 b1 dnA).1
      (generateNewMessageQueries h.peers db fp m1 s t1 b1 dnA).2.1 fp m2 s t2 b2 dnA).1 =
      (resolvePeerId (resolvePeerId h.peers fp).1 s).1 := by
    rw [hcache2, hcache1, hres2]
  have hsid3 : (resolvePeerId (resolvePeerId (generateNewMessageQueries
      (generateNewMessageQueries h.peers db fp m1 s t1 b1 dnA).1
      (generateNewMessageQueries h.peers db fp m1 s t1 b1 dnA).2.1 fp m2 s t2 b2 dnA).1
      fp).1 s).2.1 =
      (resolvePeerId (resolvePeerId h.peers fp).1 s).2.1 := by
    rw [hcacheC2, hres2]
  have hpred3 : (fun a2 : AliasRow => a2.owner == (resolvePeerId (resolvePeerId
      (generateNewMessageQueries
        (generateNewMessageQueries h.peers db fp m1 s t1 b1 dnA).1
        (generateNewMessageQueries h.peers db fp m1 s t1 b1 dnA).2.1 fp m2 s t2 b2
        dnA).1 fp).1 s).2.1 &&
        a2.display_name == dnC) =
      (fun a2 : AliasRow => a2.owner == (resolvePeerId (resolvePeerId h.peers fp).1 s).2.1 &&
        a2.display_name == dnC) := by
    funext a2
    rw [hsid3]
  rw [hpred3] at hfind3
  have hstab := aliasStep_find_mono hdisj2 hfind1
  rw [hfind2] at hstab
  have harr : arow2 = arow1 := Option.some.inj hstab
  have hp1 := List.find?_some hfind1
  have hp3 := List.find?_some hfind3
  simp only [Bool.and_eq_true, beq_iff_eq] at hp1 hp3
  have harr13 : arow3 ≠ arow1 := by
    intro he
    exact hdn (by rw [← hp1.2, ← he, hp3.2])
  have wf1 := aliasStep_wf hwf hdisj1
  have wf2 := aliasStep_wf wf1 hdisj2
  have wf3 := aliasStep_wf wf2 hdisj3
  have hm1 := List.mem_of_find?_eq_some hfind1
  have hm1b := aliasStep_mem hdisj2 hm1
  have hm1c := aliasStep_mem hdisj3 hm1b
  have hm3 := List.mem_of_find?_eq_some hfind3
  have hsym : Symmetric (fun (x y : AliasRow) => x.id ≠ y.id) := fun x y hxy => hxy.symm
  have hneq : arow3.id ≠ arow1.id := wf3.forall hsym hm3 hm1c harr13
  exact ⟨_, _, _, arow1.id, arow2.id, arow3.id, rfl, rfl, rfl,
    ⟨hl1, hget1, hsa1⟩, ⟨hl2, hget2, hsa2⟩, ⟨hl3, hget3, hsa3⟩,
    congrArg AliasRow.id harr, hneq⟩

/-- Witness for `alias_same_name_same_id` at a concrete fresh store. -/
theorem alias_same_name_same_id_witness :
    (let h : History := ⟨some ⟨[], [], [], [], [], 1⟩, [], []⟩
     let rA := h.addNewMessage true "F" "m1" "S" 1 true "Alice"
     let rB := rA.1.addNewMessage true "F" "m2" "S" 2 true "Alice"
     let rC := rB.1.addNewMessage true "F" "m3" "S" 3 true "Bob"
     ∃ (dbA dbB dbC : DB) (aA aB aC : Int),
       rA.1.db = some dbA ∧ rB.1.db = some dbB ∧ rC.1.db = some dbC ∧
       (∃ hl, dbA.historyTable.getLast? = some hl ∧ hl.sender_alias = aA) ∧
       (∃ hl, dbB.historyTable.getLast? = some hl ∧ hl.sender_alias = aB) ∧
       (∃ hl, dbC.historyTable.getLast? = some hl ∧ hl.sender_alias = aC) ∧
       aB = aA ∧ aC ≠ aA) :=
  alias_same_name_same_id ⟨some ⟨[], [], [], [], [], 1⟩, [], []⟩ ⟨[], [], [], [], [], 1⟩
    "F" "m1" "m2" "m3" "S" 1 2 3 true true true "Alice" "Bob" rfl List.Pairwise.nil
    (by decide) _ _ _ rfl rfl rfl

/-! ### C10: initial file-transfer row state -/

theorem joinHistoryRow_file (db0 : DB) (pk : String) (a b : Int) (hr : HistoryRow)
    (msg : HistMessage) (f : ToxFileRecord)
    (hj : joinHistoryRow db0 pk a b hr = some msg) (hc : msg.content = HistContent.file f) :
    ∃ ft, ft ∈ db0.fileTransfersTable ∧ f.status = ft.file_state ∧
      f.filePath = ft.file_path ∧ f.resumeFileId = ft.file_restart_id ∧
      f.fileName = ft.file_name ∧ f.filesize = ft.file_size ∧ f.direction = ft.direction := by
  unfold joinHistoryRow at hj
  dsimp only at hj
  split at hj
  · split at hj
    · exact Option.noConfusion hj
    · split at hj
      · split at hj
        · exact Option.noConfusion hj
        · split at hj
          · exact Option.noConfusion hj
          · split at hj
            · rw [← Option.some.inj hj] at hc
              dsimp only at hc
              exact HistContent.noConfusion hc
            · next ft heq =>
              rw [← Option.some.inj hj] at hc
              dsimp only at hc
              obtain ⟨fid, hfid, hfind⟩ := Option.bind_eq_some.mp heq
              refine ⟨ft, List.mem_of_find?_eq_some hfind, ?_⟩
              cases hc
              exact ⟨rfl, rfl, rfl, rfl, rfl, rfl⟩
      · exact Option.noConfusion hj
  · exact Option.noConfusion hj

/-- C10: `History::onFileInsertionReady` inserts every `file_transfers`
row with `file_state = ToxFile::CANCELED` and an empty `file_hash`; and
every file record returned by a fetch carries exactly the stored row's
state, so until (and unless) a finishing update rewrites the row, any
fetch returning that record reports `CANCELED`. -/
theorem fileRow_initially_canceled (h : History) (db : DB) (data : FileDbInsertionData)
    (hdb : h.db = some db) :
    (∃ db2 fid, (h.onFileInsertionReady data).1.db = some db2 ∧
      (h.onFileInsertionReady data).2 = some fid ∧
      db2.fileTransfersTable = db.fileTransfersTable ++
        [⟨fid, (qhashLookup h.peers data.friendPk).getD 0, data.fileId, data.fileName,
          data.filePath, "", data.size, data.direction, FileState.CANCELED⟩]) ∧
    (∀ (db0 : DB) (pk : String) (a b : Int) (n : Nat) (msg : HistMessage) (f : ToxFileRecord),
      msg ∈ db0.getChatHistory pk a b n → msg.content = HistContent.file f →
      ∃ ft, ft ∈ db0.fileTransfersTable ∧ f.status = ft.file_state ∧
        f.filePath = ft.file_path ∧ f.resumeFileId = ft.file_restart_id ∧
        f.fileName = ft.file_name ∧ f.filesize = ft.file_size ∧ f.direction = ft.direction) := by
  constructor
  · simp only [History.onFileInsertionReady, hdb]
    exact ⟨_, _, rfl, rfl, rfl⟩
  · intro db0 pk a b n msg f hmem hc
    have hbase : msg ∈ db0.historyTable.filterMap (joinHistoryRow db0 pk a b) := by
      unfold DB.getChatHistory at hmem
      by_cases hn : n ≠ 0
      · rw [if_pos hn] at hmem
        rw [List.mem_insertionSort] at hmem
        have hmem2 := List.mem_of_mem_take hmem
        rw [List.mem_insertionSort] at hmem2
        exact hmem2
      · rw [if_neg hn] at hmem
        exact hmem
    obtain ⟨hr, _, hj⟩ := List.mem_filterMap.mp hbase
    exact joinHistoryRow_file db0 pk a b hr msg f hj hc

/-- Witness for `fileRow_initially_canceled` at a concrete store. -/
theorem fileRow_initially_canceled_witness :
    (let h : History := ⟨some ⟨[⟨0, "F"⟩], [], [⟨1, 9, 0, 1, "", none⟩], [], [], 1⟩,
       [("F", 0)], []⟩
     let data : FileDbInsertionData := ⟨"F", "SESS", "n.bin", "/p", 7, FileDirection.SENDING, 1⟩
     (∃ db2 fid, (h.onFileInsertionReady data).1.db = some db2 ∧
       (h.onFileInsertionReady data).2 = some fid ∧
       db2.fileTransfersTable = [] ++
         [⟨fid, (qhashLookup h.peers data.friendPk).getD 0, data.fileId, data.fileName,
           data.filePath, "", data.size, data.direction, FileState.CANCELED⟩]) ∧
     (∀ (db0 : DB) (pk : String) (a b : Int) (n : Nat) (msg : HistMessage) (f : ToxFileRecord),
       msg ∈ db0.getChatHistory pk a b n → msg.content = HistContent.file f →
       ∃ ft, ft ∈ db0.fileTransfersTable ∧ f.status = ft.file_state ∧
         f.filePath = ft.file_path ∧ f.resumeFileId = ft.file_restart_id ∧
         f.fileName = ft.file_name ∧ f.filesize = ft.file_size ∧ f.direction = ft.direction)) :=
  fileRow_initially_canceled
    ⟨some ⟨[⟨0, "F"⟩], [], [⟨1, 9, 0, 1, "", none⟩], [], [], 1⟩, [("F", 0)], []⟩
    ⟨[⟨0, "F"⟩], [], [⟨1, 9, 0, 1, "", none⟩], [], [], 1⟩
    ⟨"F", "SESS", "n.bin", "/p", 7, FileDirection.SENDING, 1⟩ rfl

theorem mem_dedupFirst {x : Int} : ∀ {l : List Int}, x ∈ dedupFirst l ↔ x ∈ l
  | [] => Iff.rfl
  | a :: t => by
    simp only [dedupFirst, List.mem_cons, List.mem_filter]
    constructor
    · rintro (rfl | ⟨h1, _⟩)
      · exact Or.inl rfl
      · exact Or.inr (mem_dedupFirst.mp h1)
    · rintro (rfl | hm)
      · exact Or.inl rfl
      · by_cases hxa : x = a
        · exact Or.inl hxa
        · exact Or.inr ⟨mem_dedupFirst.mpr hm, by simp [hxa]⟩

theorem dedupFirst_nodup : ∀ (l : List Int), (dedupFirst l).Nodup
  | [] => List.nodup_nil
  | a :: t => by
    rw [dedupFirst, List.nodup_cons]
    constructor
    · intro hmem
      rw [List.mem_filter] at hmem
      simp at hmem
    · exact List.Nodup.filter _ (dedupFirst_nodup t)

/-- C9 (amended): `History::getChatHistoryCounts` returns exactly one
entry per calendar day carrying at least one of the chat's messages in
range; an entry's key is the message's day bucket
`timestamp/1000/60/60/24` minus the *query's from-day* (not the day
offset since the epoch — see `countPerDay_key_not_epoch_offset`), and
its count is the number of the chat's messages in range on that day. -/
theorem countPerDay_exact (h : History) (db : DB) (pk : String) (fromDay toDay : Int)
    (hdb : h.db = some db) :
    let fromMs := fromDay * 86400000
    let toMs := toDay * 86400000
    let rows := db.historyTable.filter (fun hr =>
      decide (fromMs ≤ hr.timestamp ∧ hr.timestamp ≤ toMs) && chatMatches db pk hr)
    let res := h.getChatHistoryCounts pk fromDay toDay
    (res.map (fun e => e.offsetDays)).Nodup ∧
    (∀ d : Int, (∃ e ∈ res, e.offsetDays = d) ↔
      ∃ hr ∈ rows, dayOfTs hr.timestamp - fromDay = d) ∧
    (∀ e ∈ res, e.count =
      (rows.filter (fun hr => dayOfTs hr.timestamp - fromDay == e.offsetDays)).length ∧
      e.count ≠ 0) := by
  intro fromMs toMs rows res
  have hres : res = (dedupFirst (rows.map (fun hr => dayOfTs hr.timestamp - fromDay))).map
      (fun d => ⟨(rows.filter (fun hr => dayOfTs hr.timestamp - fromDay == d)).length, d⟩) := by
    simp only [res, rows, fromMs, toMs, History.getChatHistoryCounts, hdb]
  refine ⟨?_, ?_, ?_⟩
  · rw [hres, List.map_map]
    have hid : ((fun e : DateMessages => e.offsetDays) ∘
        (fun d : Int =>
          (⟨(rows.filter (fun hr => dayOfTs hr.timestamp - fromDay == d)).length, d⟩ :
            DateMessages))) = fun d => d := rfl
    rw [hid, List.map_id']
    exact dedupFirst_nodup _
  · intro d
    constructor
    · rintro ⟨e, he, hd⟩
      rw [hres] at he
      obtain ⟨d0, hd0, hed⟩ := List.mem_map.mp he
      have : e.offsetDays = d0 := by rw [← hed]
      rw [this] at hd
      subst hd
      exact List.mem_map.mp (mem_dedupFirst.mp hd0)
    · rintro ⟨hr, hmem, hkey⟩
      refine ⟨⟨(rows.filter (fun hr2 => dayOfTs hr2.timestamp - fromDay == d)).length, d⟩,
        ?_, rfl⟩
      rw [hres]
      refine List.mem_map_of_mem _ (mem_dedupFirst.mpr ?_)
      rw [← hkey]
      exact List.mem_map_of_mem _ hmem
  · intro e he
    rw [hres] at he
    obtain ⟨d0, hd0, hed⟩ := List.mem_map.mp he
    subst hed
    dsimp only
    refine ⟨rfl, ?_⟩
    obtain ⟨hr, hmem, hkey⟩ := List.mem_map.mp (mem_dedupFirst.mp hd0)
    have hmf : hr ∈ rows.filter (fun hr2 => dayOfTs hr2.timestamp - fromDay == d0) :=
      List.mem_filter.mpr ⟨hmem, by simp [hkey]⟩
    exact (List.length_pos_of_mem hmf).ne'

/-- Witness for `countPerDay_exact` at a concrete store. -/
theorem countPerDay_exact_witness :
    (let db : DB := ⟨[⟨0, "K"⟩], [⟨1, 0, "d"⟩], [⟨1, 172800005, 0, 1, "hi", none⟩], [], [], 1⟩
     let h : History := ⟨some db, [("K", 0)], []⟩
     let fromMs := (1 : Int) * 86400000
     let toMs := (3 : Int) * 86400000
     let rows := db.historyTable.filter (fun hr =>
       decide (fromMs ≤ hr.timestamp ∧ hr.timestamp ≤ toMs) && chatMatches db "K" hr)
     let res := h.getChatHistoryCounts "K" 1 3
     (res.map (fun e => e.offsetDays)).Nodup ∧
     (∀ d : Int, (∃ e ∈ res, e.offsetDays = d) ↔
       ∃ hr ∈ rows, dayOfTs hr.timestamp - 1 = d) ∧
     (∀ e ∈ res, e.count =
       (rows.filter (fun hr => dayOfTs hr.timestamp - 1 == e.offsetDays)).length ∧
       e.count ≠ 0)) :=
  countPerDay_exact
    ⟨some ⟨[⟨0, "K"⟩], [⟨1, 0, "d"⟩], [⟨1, 172800005, 0, 1, "hi", none⟩], [], [], 1⟩,
      [("K", 0)], []⟩
    ⟨[⟨0, "K"⟩], [⟨1, 0, "d"⟩], [⟨1, 172800005, 0, 1, "hi", none⟩], [], [], 1⟩ "K" 1 3 rfl

/-! ### C3: fetching the most recent N messages -/

theorem joinHistoryRow_id (db0 : DB) (pk : String) (a b : Int) (hr : HistoryRow)
    (msg : HistMessage) (hj : joinHistoryRow db0 pk a b hr = some msg) : msg.id = hr.id := by
  unfold joinHistoryRow at hj
  dsimp only at hj
  split at hj
  · split at hj
    · exact Option.noConfusion hj
    · split at hj
      · split at hj
        · exact Option.noConfusion hj
        · split at hj
          · exact Option.noConfusion hj
          · split at hj
            · rw [← Option.some.inj hj]
            · rw [← Option.some.inj hj]
      · exact Option.noConfusion hj
  · exact Option.noConfusion hj

theorem insertionSort_idLE_eq {l m : List HistMessage} (hp : l.Perm m)
    (hm : m.Pairwise (fun x y => x.id < y.id)) : List.insertionSort idLE l = m := by
  have hsorted : (List.insertionSort idLE l).Sorted idLE := List.sorted_insertionSort idLE l
  have hperm : (List.insertionSort idLE l).Perm m := (List.perm_insertionSort idLE l).trans hp
  have hne_m : m.Pairwise (fun x y => x.id ≠ y.id) := hm.imp (fun hlt => ne_of_lt hlt)
  have hne_sort : (List.insertionSort idLE l).Pairwise (fun x y => x.id ≠ y.id) :=
    (hperm.pairwise_iff (fun hxy => hxy.symm)).mpr hne_m
  have hlt_sort : (List.insertionSort idLE l).Sorted (fun x y => x.id < y.id) :=
    (hsorted.and hne_sort).imp (fun hh => lt_of_le_of_ne hh.1 hh.2)
  haveI : IsAntisymm HistMessage (fun x y => x.id < y.id) :=
    ⟨fun _ _ h1 h2 => (lt_asymm h1 h2).elim⟩
  exact List.eq_of_perm_of_sorted hperm hlt_sort hm

theorem insertionSort_idGE_eq {l m : List HistMessage} (hp : l.Perm m)
    (hm : m.Pairwise (fun x y => y.id < x.id)) : List.insertionSort idGE l = m := by
  have hsorted : (List.insertionSort idGE l).Sorted idGE := List.sorted_insertionSort idGE l
  have hperm : (List.insertionSort idGE l).Perm m := (List.perm_insertionSort idGE l).trans hp
  have hne_m : m.Pairwise (fun x y => x.id ≠ y.id) := hm.imp (fun hlt => (ne_of_lt hlt).symm)
  have hne_sort : (List.insertionSort idGE l).Pairwise (fun x y => x.id ≠ y.id) :=
    (hperm.pairwise_iff (fun hxy => hxy.symm)).mpr hne_m
  have hlt_sort : (List.insertionSort idGE l).Sorted (fun x y => y.id < x.id) :=
    (hsorted.and hne_sort).imp (fun hh => lt_of_le_of_ne hh.1 hh.2.symm)
  haveI : IsAntisymm HistMessage (fun x y => y.id < x.id) :=
    ⟨fun _ _ h1 h2 => (lt_asymm h1 h2).elim⟩
  exact List.eq_of_perm_of_sorted hperm hlt_sort hm

/-- C3: with history-row ids strictly increasing (their insertion
invariant), `getChatHistory` with a limit `n > 0` returns exactly the
last `n` records of the in-range base relation — at most `n` of them,
in ascending id order, the most recent ones — and the no-argument
variant `getChatHistoryDefaultNum` calls it with
`NUM_MESSAGES_DEFAULT = 100`. -/
theorem fetchRecent_lastN (db : DB) (pk : String) (a b : Int) (n : Nat)
    (hn : 0 < n)
    (hids : db.historyTable.Pairwise (fun r1 r2 => r1.id < r2.id)) :
    let base := db.historyTable.filterMap (joinHistoryRow db pk a b)
    let res := db.getChatHistory pk a b n
    res = base.drop (base.length - n) ∧
    res.length ≤ n ∧
    res.Sorted idLE ∧
    NUM_MESSAGES_DEFAULT = 100 ∧
    (∀ h : History, h.db = some db →
      h.getChatHistoryDefaultNum pk b = db.getChatHistory pk 0 b NUM_MESSAGES_DEFAULT) := by
  intro base res
  have hbase_lt : base.Pairwise (fun x y => x.id < y.id) := by
    refine List.pairwise_filterMap.mpr (hids.imp ?_)
    intro r1 r2 hlt m1 hm1 m2 hm2
    rw [Option.mem_def] at hm1 hm2
    rw [joinHistoryRow_id db pk a b r1 m1 hm1, joinHistoryRow_id db pk a b r2 m2 hm2]
    exact hlt
  have hres : res = base.drop (base.length - n) := by
    have hrev : base.reverse.Pairwise (fun x y => y.id < x.id) := by
      rw [List.pairwise_reverse]
      exact hbase_lt
    have hsortGE : List.insertionSort idGE base = base.reverse :=
      insertionSort_idGE_eq (base.reverse_perm).symm hrev
    have hdrop_lt : (base.drop (base.length - n)).Pairwise (fun x y => x.id < y.id) :=
      hbase_lt.sublist (List.drop_sublist _ _)
    have hfinal : List.insertionSort idLE ((base.drop (base.length - n)).reverse) =
        base.drop (base.length - n) :=
      insertionSort_idLE_eq (List.reverse_perm _) hdrop_lt
    show DB.getChatHistory db pk a b n = _
    unfold DB.getChatHistory
    rw [if_pos hn.ne', hsortGE, List.take_reverse, hfinal]
  refine ⟨hres, ?_, ?_, rfl, ?_⟩
  · rw [hres, List.length_drop]
    omega
  · rw [hres]
    exact (hbase_lt.sublist (List.drop_sublist _ _)).imp (fun hlt => le_of_lt hlt)
  · intro h hdb
    simp only [History.getChatHistoryDefaultNum, hdb]

/-- Witness for `fetchRecent_lastN` at a concrete three-message store. -/
theorem fetchRecent_lastN_witness :
    (let db : DB := ⟨[⟨0, "K"⟩], [⟨1, 0, "d"⟩],
       [⟨1, 10, 0, 1, "one", none⟩, ⟨2, 20, 0, 1, "two", none⟩, ⟨3, 30, 0, 1, "three", none⟩],
       [], [], 1⟩
     let base := db.historyTable.filterMap (joinHistoryRow db "K" 0 100)
     let res := db.getChatHistory "K" 0 100 2
     res = base.drop (base.length - 2) ∧
     res.length ≤ 2 ∧
     res.Sorted idLE ∧
     NUM_MESSAGES_DEFAULT = 100 ∧
     (∀ h : History, h.db = some db →
       h.getChatHistoryDefaultNum "K" 100 = db.getChatHistory "K" 0 100 NUM_MESSAGES_DEFAULT)) :=
  fetchRecent_lastN
    ⟨[⟨0, "K"⟩], [⟨1, 0, "d"⟩],
      [⟨1, 10, 0, 1, "one", none⟩, ⟨2, 20, 0, 1, "two", none⟩, ⟨3, 30, 0, 1, "three", none⟩],
      [], [], 1⟩ "K" 0 100 2 (by decide) (by decide)
